import Mathlib

/-!
Verification of the Studyfied backend's structured-generation pipeline.

The Python sources under `backend/app` are shallowly embedded here:
pure functions become Lean functions over `List Char` / `ℚ` / `ℕ`;
network calls and the Pydantic layer become explicit parameters or
inductive "reply" values; exceptions become `Except` / `Option` results.
-/

namespace Studyfied

/-! ## Character classes and Python string helpers

`isJsonWs` is the whitespace accepted between tokens by `json.loads`
(RFC 8259: space, tab, newline, carriage return).  `isPyWs` models the
character set stripped by Python's `str.strip()` (ASCII whitespace plus
the Unicode spaces and separators recognised by `str.isspace`).  -/

def isJsonWs (c : Char) : Bool :=
  c == ' ' || c == '\t' || c == '\n' || c == '\r'

def isPyWs (c : Char) : Bool :=
  isJsonWs c || c == '\x0b' || c == '\x0c' ||
  c == '\x1c' || c == '\x1d' || c == '\x1e' || c == '\x1f' ||
  c == '\x85' || c == '\xa0' || c.toNat == 0x1680 ||
  (0x2000 ≤ c.toNat && c.toNat ≤ 0x200a) ||
  c.toNat == 0x2028 || c.toNat == 0x2029 || c.toNat == 0x202f ||
  c.toNat == 0x205f || c.toNat == 0x3000

/-- The line-break characters recognised by Python's `str.splitlines`. -/
def isLineBreak (c : Char) : Bool :=
  c == '\n' || c == '\r' || c == '\x0b' || c == '\x0c' ||
  c == '\x1c' || c == '\x1d' || c == '\x1e' ||
  c == '\x85' || c.toNat == 0x2028 || c.toNat == 0x2029

/-- Remove the trailing run of characters satisfying `p` (Python `rstrip`). -/
def stripTrail (p : Char → Bool) (l : List Char) : List Char :=
  (l.reverse.dropWhile p).reverse

/-- Remove leading and trailing runs of characters satisfying `p`
(Python `strip` for `p = isPyWs`). -/
def stripBoth (p : Char → Bool) (l : List Char) : List Char :=
  stripTrail p (l.dropWhile p)

/-- Python `str.splitlines`, accumulator worker (current line kept reversed). -/
def splitlinesGo : List Char → List Char → List (List Char)
  | cur, [] => if cur.isEmpty then [] else [cur.reverse]
  | cur, c :: t =>
    if c == '\r' then
      match t with
      | d :: t2 =>
        if d == '\n' then cur.reverse :: splitlinesGo [] t2
        else cur.reverse :: splitlinesGo [] (d :: t2)
      | [] => cur.reverse :: splitlinesGo [] ([] : List Char)
    else if isLineBreak c then cur.reverse :: splitlinesGo [] t
    else splitlinesGo (c :: cur) t

/-- Python `str.splitlines`. -/
def splitlinesPy (l : List Char) : List (List Char) :=
  splitlinesGo [] l

/-- Python `"\n".join(lines)`. -/
def joinNL : List (List Char) → List Char
  | [] => []
  | [x] => x
  | x :: y :: t => x ++ '\n' :: joinNL (y :: t)

/-! ## JSON values

Model of the values produced by Python's `json.loads`.  Objects are kept as
association lists in parse order and numbers as their source lexemes; the
claims verified here only ever compare parses of identical texts, so this
representation choice is invisible to them. -/

inductive Json where
  | null : Json
  | bool (b : Bool) : Json
  | num (lexeme : String) : Json
  | str (s : String) : Json
  | arr (elems : List Json) : Json
  | obj (members : List (String × Json)) : Json

/-! ## Audio duration reconciliation

Embedding of the reconciliation fragment of
`routers/generate_lesson.py` (`generate_lesson`, lines 105-117): when audio
bytes are present and the manifest duration is positive, the handler computes
`mismatch_percent = abs(audio - manifest) / manifest * 100` and merely logs a
warning when it exceeds 10.  No exception is raised on any branch, so the
response is returned in every case. -/

structure ReconcileOutcome where
  /-- whether `logger.warning("Audio duration mismatch ...")` fires -/
  warned : Bool
  /-- whether the handler goes on to return the `LessonManifestResponse` -/
  lessonReturned : Bool
  deriving DecidableEq, Repr

def reconcileAudio (hasAudio : Bool) (audioDuration manifestDuration : ℚ) :
    ReconcileOutcome :=
  if hasAudio then
    if manifestDuration > 0 then
      let mismatchPercent := |audioDuration - manifestDuration| / manifestDuration * 100
      { warned := decide (mismatchPercent > 10), lessonReturned := true }
    else { warned := false, lessonReturned := true }
  else { warned := false, lessonReturned := true }

/-! ## Color-key background removal

Embedding of `AssetFactoryService._process_image_with_smart_key`
(`services/asset_factory.py`, lines 344-395) at the level of HSV pixels:
`cv2.inRange` is inclusive on both bounds and the masks are the 0/255
uint8 masks OpenCV produces, modelled as `Bool`. -/

structure HSV where
  h : ℕ
  s : ℕ
  v : ℕ
  deriving DecidableEq, Repr

def hsvInRange (p : HSV) (lo hi : HSV) : Bool :=
  decide (lo.h ≤ p.h) && decide (p.h ≤ hi.h) &&
  decide (lo.s ≤ p.s) && decide (p.s ≤ hi.s) &&
  decide (lo.v ≤ p.v) && decide (p.v ≤ hi.v)

/-- `cv2.inRange(hsv, [0,0,200], [180,30,255])`: the white band. -/
def whiteMask (p : HSV) : Bool :=
  hsvInRange p { h := 0, s := 0, v := 200 } { h := 180, s := 30, v := 255 }

/-- `cv2.inRange(hsv, [80,50,50], [100,255,255])`: the protected teal band. -/
def tealMask (p : HSV) : Bool :=
  hsvInRange p { h := 80, s := 50, v := 50 } { h := 100, s := 255, v := 255 }

/-- `cv2.inRange(hsv, [10,50,50], [25,255,255])`: the protected orange band. -/
def orangeMask (p : HSV) : Bool :=
  hsvInRange p { h := 10, s := 50, v := 50 } { h := 25, s := 255, v := 255 }

/-- `accent_mask = bitwise_or(teal_mask, orange_mask)`. -/
def accentMask (p : HSV) : Bool :=
  tealMask p || orangeMask p

/-- `background_mask = bitwise_and(white_mask, bitwise_not(accent_mask))`. -/
def backgroundMask (p : HSV) : Bool :=
  whiteMask p && !accentMask p

/-- The alpha channel written into the BGRA output:
`bgra[:, :, 3] = bitwise_not(background_mask)`. -/
def alphaOf (p : HSV) : ℕ :=
  if backgroundMask p then 0 else 255

/-- The synthetic test image of the spec: pure white everywhere except one
pixel (at row 1, column 1 of a 3×3 grid) in the cool-accent (teal) band. -/
def whiteWithTealPixel (i j : Fin 3) : HSV :=
  if i = 1 ∧ j = 1 then { h := 90, s := 255, v := 255 }
  else { h := 0, s := 0, v := 255 }

/-! ## Lesson manifest schema and validator

Embedding of the Pydantic models of `schemas/lesson.py`.  Field types are
carried by the Lean structures; the declared field constraints
(`le=180`, `max_length=5`) and the `field_validator` functions
(`validate_asset_id`, `validate_duration`, `validate_scenes`) become the
boolean acceptance test `validManifest`: Pydantic accepts a manifest exactly
when every constraint and validator passes.  `float` durations are modelled
as `ℚ`. -/

inductive VisualEventType where
  | draw | fadeIn | highlight | move | pause | quiz
  deriving DecidableEq, Repr

inductive Zone where
  | centerMain | leftSupport | rightNotes | topHeader | bottomContext
  deriving DecidableEq, Repr

inductive Role where
  | primaryDiagram | supportingDiagram | prop_ | icon
  deriving DecidableEq, Repr

inductive ScaleHint where
  | large | medium | small
  deriving DecidableEq, Repr

inductive InteractionType where
  | quiz | pauseAndThink | labelPrediction | none
  deriving DecidableEq, Repr

structure VoiceoverSegment where
  text : String
  checkpointId : String

structure VisualEvent where
  type : VisualEventType
  assetId : String
  checkpointId : String
  zone : Zone
  role : Role
  scaleHint : ScaleHint
  params : List (String × Json) := []

structure Interaction where
  type : InteractionType
  prompt : Option String := Option.none
  options : List String := []
  correctAnswer : Option String := Option.none

structure Scene where
  sceneId : String
  purpose : String
  assetsUsed : List String := []
  voiceover : List VoiceoverSegment
  events : List VisualEvent
  interaction : Interaction

structure LessonManifest where
  lessonDurationSec : ℚ
  scenes : List Scene

/-- `VisualEvent.validate_asset_id`: rejects an asset id that is empty or
whitespace-only (`not v or not v.strip()`). -/
def validAssetId (e : VisualEvent) : Bool :=
  !(e.assetId.data.isEmpty) && !((stripBoth isPyWs e.assetId.data).isEmpty)

/-- Per-scene checkpoint consistency from `LessonManifest.validate_scenes`:
every checkpoint id referenced by a visual event must appear among the
scene's voiceover checkpoint ids (the reverse direction is not checked). -/
def sceneCheckpointsOk (sc : Scene) : Bool :=
  sc.events.all fun e =>
    sc.voiceover.any fun seg => seg.checkpointId == e.checkpointId

/-- Pydantic acceptance for `LessonManifest`:
duration positive and at most 180 (`le=180` plus `validate_duration`),
1-5 scenes (`max_length=5` plus `validate_scenes`), per-scene checkpoint
consistency, non-empty asset ids on events, and at least one scene whose
interaction type differs from `none`. -/
def validManifest (m : LessonManifest) : Bool :=
  decide (0 < m.lessonDurationSec) &&
  decide (m.lessonDurationSec ≤ 180) &&
  decide (1 ≤ m.scenes.length) &&
  decide (m.scenes.length ≤ 5) &&
  (m.scenes.all fun sc => sc.events.all validAssetId && sceneCheckpointsOk sc) &&
  (m.scenes.any fun sc => sc.interaction.type ≠ InteractionType.none)

/-! ## Generate-validate-retry engines

The services `librarian.extract_topics`, `ai_director.generate_lesson_manifest`
and `image_steering.generate_image_prompts` share one control-flow skeleton:
call the provider, parse the response as JSON, validate with Pydantic, and on
a parse or validation failure re-invoke themselves once with
`retry_count + 1` (`if retry_count < 1`), else raise a terminal typed error.

The provider call together with its JSON-parse and Pydantic-validation
outcome is abstracted as a reply stream `ℕ → Reply`: the reply at index `n`
is the outcome of the `(n+1)`-th provider call (the code passes
`retry_count` as the only state, so call `n` runs with `retry_count = n`).
Each embedded engine returns its outcome paired with the total number of
provider calls it performed. -/

/-- Topic schema of `schemas/analyze.py` (`TopicItem`). -/
structure TopicItem where
  id : String
  title : String
  focus : String
  hook : String
  visualPotentialScore : ℚ
  keyVisuals : List String

/-- Pydantic acceptance for `TopicItem` / `AnalyzeResponse`
(`visual_potential_score` carries `ge=1, le=10`). -/
def validAnalyzeResponse (topics : List TopicItem) : Bool :=
  topics.all fun t =>
    decide (1 ≤ t.visualPotentialScore) && decide (t.visualPotentialScore ≤ 10)

/-- Outcome of one provider call in `librarian.extract_topics`, as seen after
JSON parsing and Pydantic validation of the raw text. -/
inductive LibReply where
  /-- `extract_json` raised `json.JSONDecodeError` -/
  | badJson : LibReply
  /-- parsed JSON for which `AnalyzeResponse(**result)` raises `ValidationError` -/
  | badSchema : LibReply
  /-- parsed JSON accepted by `AnalyzeResponse(**result)` -/
  | okTopics (topics : List TopicItem) : LibReply

inductive LibError where
  /-- `TopicExtractionFailedError("Invalid JSON response: ...")` -/
  | invalidJson : LibError
  /-- `TopicExtractionFailedError("Response validation failed: ...")` -/
  | validationFailed : LibError
  deriving DecidableEq, Repr

/-- `librarian.extract_topics` (lines 143-226): one provider call per
invocation; a JSON-decode failure or a Pydantic validation failure recurses
with `retry_count + 1` while `retry_count < 1`, else raises.  Returns the
outcome and the total number of provider calls. -/
def extractTopics (provider : ℕ → LibReply) (retryCount : ℕ) :
    Except LibError (List TopicItem) × ℕ :=
  match provider retryCount with
  | .badJson =>
    if retryCount < 1 then
      let r := extractTopics provider (retryCount + 1)
      (r.1, r.2 + 1)
    else (.error .invalidJson, 1)
  | .badSchema =>
    if retryCount < 1 then
      let r := extractTopics provider (retryCount + 1)
      (r.1, r.2 + 1)
    else (.error .validationFailed, 1)
  | .okTopics topics => (.ok topics, 1)
  termination_by 1 - retryCount

inductive DirError where
  /-- `LessonScriptGenerationError("Invalid JSON response: ...")` -/
  | invalidJson : DirError
  /-- `LessonScriptGenerationError("Response validation failed: ...")` -/
  | validationFailed : DirError
  /-- `InvalidLessonDurationError` -/
  | invalidDuration : DirError
  /-- `InvalidSceneCountError` -/
  | invalidSceneCount : DirError
  /-- `LessonScriptGenerationError("Invalid asset reference: ...")` -/
  | invalidAssetRef : DirError
  deriving DecidableEq, Repr

/-- Outcome of one provider call in `ai_director.generate_lesson_manifest`:
either a JSON-decode failure or a structurally typed manifest handed to the
`LessonManifest(**result)` validators (modelled by `validManifest`). -/
inductive DirReply where
  | badJson : DirReply
  | manifest (m : LessonManifest) : DirReply

/-- `ai_director.generate_lesson_manifest` (lines 285-386): JSON-decode and
Pydantic-validation failures retry once; the post-validation duration, scene
count and asset-reference checks raise without retrying (their exceptions are
re-raised by the outer handler, not caught by `except ValidationError`). -/
def generateLessonManifest (assetIds : List String) (provider : ℕ → DirReply)
    (retryCount : ℕ) : Except DirError LessonManifest × ℕ :=
  match provider retryCount with
  | .badJson =>
    if retryCount < 1 then
      let r := generateLessonManifest assetIds provider (retryCount + 1)
      (r.1, r.2 + 1)
    else (.error .invalidJson, 1)
  | .manifest m =>
    if validManifest m then
      if m.lessonDurationSec > 180 then (.error .invalidDuration, 1)
      else if m.scenes.length > 5 then (.error .invalidSceneCount, 1)
      else if m.scenes.all (fun sc => sc.events.all fun e => assetIds.contains e.assetId)
      then (.ok m, 1)
      else (.error .invalidAssetRef, 1)
    else
      if retryCount < 1 then
        let r := generateLessonManifest assetIds provider (retryCount + 1)
        (r.1, r.2 + 1)
      else (.error .validationFailed, 1)
  termination_by 1 - retryCount

/-! ## Image-prompt planner -/

/-- `schemas/image_generation.py` (`ImagePromptItem`). -/
structure ImagePromptItem where
  purpose : String
  layoutType : String
  imagePrompt : String

/-- `schemas/image_generation.py` (`StoryboardOverview`). -/
structure StoryboardOverview where
  totalImages : ℤ := 5
  visualFlow : String

/-- `schemas/image_generation.py` (`ImageSteeringResponse`); Pydantic's
`min_length=1` on `images` holds of every value it accepts. -/
structure ImageSteeringResponse where
  storyboardOverview : StoryboardOverview
  images : List ImagePromptItem

/-- Outcome of one provider call in
`image_steering.generate_image_prompts`, as seen after the empty-response
check, `json.loads`, and `ImageSteeringResponse(**result)`. -/
inductive ImgReply where
  /-- `response.text` was falsy -/
  | empty : ImgReply
  /-- `json.loads` raised `JSONDecodeError` -/
  | badJson : ImgReply
  /-- `ImageSteeringResponse(**result)` raised `ValidationError` -/
  | badSchema : ImgReply
  /-- `ImageSteeringResponse(**result)` succeeded -/
  | ok (r : ImageSteeringResponse) : ImgReply

inductive ImgError where
  /-- `ImagePromptGenerationError("Empty response from Gemini API")` -/
  | emptyResponse : ImgError
  /-- `ImagePromptGenerationError("Invalid JSON response: ...")` -/
  | invalidJson : ImgError
  /-- `ImagePromptGenerationError("Response validation failed: ...")` -/
  | validationFailed : ImgError
  /-- `InvalidImagePromptCountError(received, expected)` -/
  | wrongCount (received expected : ℕ) : ImgError
  /-- `ImagePromptGenerationError("... missing mandatory sketchnote prefix")` -/
  | missingMandatoryText (indices : List ℕ) : ImgError
  deriving DecidableEq, Repr

/-- `MANDATORY_PROMPT_PREFIX` of `services/image_steering.py` line 36. -/
def mandatoryPromptText : String :=
  "Sketchnote-style black-and-white instructional illustration"

/-- Python's case-insensitive containment test
`MANDATORY_PROMPT_PREFIX.lower() in img.image_prompt.lower()`
(`str.lower` modelled per character; the mandatory text is ASCII). -/
def containsLower (hay needle : String) : Bool :=
  ((hay.data.map Char.toLower).tails.any fun t =>
    (needle.data.map Char.toLower).isPrefixOf t)

/-- The `for i, img in enumerate(validated.images)` accumulation of
`missing_prefix_indices` (lines 255-258), with `i` the running index. -/
def missingTextIndicesFrom (i : ℕ) : List ImagePromptItem → List ℕ
  | [] => []
  | img :: t =>
    if containsLower img.imagePrompt mandatoryPromptText then
      missingTextIndicesFrom (i + 1) t
    else i :: missingTextIndicesFrom (i + 1) t

/-- Indices of prompts missing the mandatory text
(`missing_prefix_indices` loop, lines 255-258). -/
def missingTextIndices (images : List ImagePromptItem) : List ℕ :=
  missingTextIndicesFrom 0 images

/-- `image_steering.generate_image_prompts` (lines 204-288): empty responses
raise without retry; JSON-decode and Pydantic failures retry once; a
validated list longer than 5 is sliced to its first 5 without retrying;
fewer than 5 prompts retry once then raise `InvalidImagePromptCountError`;
a prompt missing the mandatory sketchnote text retries once then raises.
Returns the outcome and the total number of provider calls. -/
def generateImagePrompts (provider : ℕ → ImgReply) (retryCount : ℕ) :
    Except ImgError ImageSteeringResponse × ℕ :=
  match provider retryCount with
  | .empty => (.error .emptyResponse, 1)
  | .badJson =>
    if retryCount < 1 then
      let r := generateImagePrompts provider (retryCount + 1)
      (r.1, r.2 + 1)
    else (.error .invalidJson, 1)
  | .badSchema =>
    if retryCount < 1 then
      let r := generateImagePrompts provider (retryCount + 1)
      (r.1, r.2 + 1)
    else (.error .validationFailed, 1)
  | .ok r =>
    let v : ImageSteeringResponse :=
      if r.images.length > 5 then { r with images := r.images.take 5 } else r
    if v.images.length < 5 then
      if retryCount < 1 then
        let r := generateImagePrompts provider (retryCount + 1)
        (r.1, r.2 + 1)
      else (.error (.wrongCount v.images.length 5), 1)
    else
      let missing := missingTextIndices v.images
      if missing.isEmpty then (.ok v, 1)
      else
        if retryCount < 1 then
          let r := generateImagePrompts provider (retryCount + 1)
          (r.1, r.2 + 1)
        else (.error (.missingMandatoryText missing), 1)
  termination_by 1 - retryCount

/-! ## Asset synthesis pipeline

Embedding of `AssetFactoryService.generate_assets` and
`_generate_single_asset` (`services/asset_factory.py`, lines 71-136).
The provider network call `_generate_image_bytes` and the OpenCV
post-processing `_process_image_with_smart_key` are abstracted as the
functions `gen` and `proc`; bytes are `List ℕ`.  `asyncio.gather` with
`return_exceptions=True` yields the per-task outcomes in task order, and the
collection loop raises the first exception it meets, else appends results in
order. -/

/-- `_generate_single_asset`: generate raw bytes, then post-process. -/
def generateSingleAsset (gen : String → Except ε (List ℕ))
    (proc : List ℕ → Except ε (List ℕ)) (prompt : String) : Except ε (List ℕ) :=
  (gen prompt).bind proc

/-- The result-collection loop of `generate_assets` (lines 102-107): walk the
gathered outcomes in order, raise the first exception, else collect. -/
def collectAssetResults : List (Except ε (List ℕ)) → Except ε (List (List ℕ))
  | [] => .ok []
  | .error e :: _ => .error e
  | .ok b :: t => (collectAssetResults t).map fun l => b :: l

/-- `AssetFactoryService.generate_assets`. -/
def generateAssets (gen : String → Except ε (List ℕ))
    (proc : List ℕ → Except ε (List ℕ)) (prompts : List String) :
    Except ε (List (List ℕ)) :=
  collectAssetResults (prompts.map (generateSingleAsset gen proc))

/-! ## A model of Python's `json.loads`

`services/json_utils.py` delegates parsing to the standard library's
`json.loads`; the collaborator is modelled here as a recursive-descent parser
over `List Char`, faithful to RFC 8259 as Python implements it in strict
mode: inter-token whitespace is space/tab/newline/carriage-return only,
strings reject unescaped control characters below `0x20` and accept any
other character, numbers follow Python's `NUMBER_RE` regex (longest match,
groups that cannot match are simply not consumed), and the Python extensions
`NaN`, `Infinity` and `-Infinity` are accepted.  The parsers return the
unconsumed remainder; `json.loads` itself requires the remainder of the
whitespace-stripped document to be empty.  `\uXXXX` escapes for surrogate
code points are rejected (Lean's `Char` cannot carry lone surrogates); no
claim depends on them. -/

def skipJsonWs (l : List Char) : List Char :=
  l.dropWhile isJsonWs

/-- ASCII digit (the `\d` of the C scanner's number grammar). -/
def isDig (c : Char) : Bool :=
  48 ≤ c.toNat && c.toNat ≤ 57

def hexVal (c : Char) : Option ℕ :=
  if isDig c then Option.some (c.toNat - 48)
  else if 'a' ≤ c ∧ c ≤ 'f' then Option.some (c.toNat - 87)
  else if 'A' ≤ c ∧ c ≤ 'F' then Option.some (c.toNat - 55)
  else Option.none

/-- The single-character escapes of JSON strings. -/
def escChar (e : Char) : Option Char :=
  if e == '"' then Option.some '"'
  else if e == '\\' then Option.some '\\'
  else if e == '/' then Option.some '/'
  else if e == 'b' then Option.some '\x08'
  else if e == 'f' then Option.some '\x0c'
  else if e == 'n' then Option.some '\n'
  else if e == 'r' then Option.some '\r'
  else if e == 't' then Option.some '\t'
  else Option.none

/-- Scan a JSON string body (input starts after the opening quote); returns
the decoded content and the remainder after the closing quote. -/
def parseStringBody : List Char → Option (List Char × List Char)
  | [] => Option.none
  | c :: t =>
    if c == '"' then Option.some ([], t)
    else if c == '\\' then
      match t with
      | [] => Option.none
      | e :: t2 =>
        if e == 'u' then
          match t2 with
          | h1 :: h2 :: h3 :: h4 :: t6 =>
            match hexVal h1, hexVal h2, hexVal h3, hexVal h4 with
            | Option.some a, Option.some b, Option.some c2, Option.some d =>
              let n := ((a * 16 + b) * 16 + c2) * 16 + d
              if 0xd800 ≤ n ∧ n ≤ 0xdfff then Option.none
              else (parseStringBody t6).map fun r => (Char.ofNat n :: r.1, r.2)
            | _, _, _, _ => Option.none
          | _ => Option.none
        else
          match escChar e with
          | Option.some d => (parseStringBody t2).map fun r => (d :: r.1, r.2)
          | Option.none => Option.none
    else if c.toNat < 0x20 then Option.none
    else (parseStringBody t).map fun r => (c :: r.1, r.2)

/-- The integer part `(0|[1-9]\d*)` of Python's number regex. -/
def parseIntDigits (l : List Char) : Option (List Char × List Char) :=
  match l with
  | [] => Option.none
  | c :: t =>
    if c == '0' then Option.some ([c], t)
    else if isDig c then
      Option.some (c :: t.takeWhile isDig, t.dropWhile isDig)
    else Option.none

/-- The optional fraction group `(\.\d+)?`: consumed only when a dot is
directly followed by a digit, otherwise nothing is consumed. -/
def parseFracPart (l : List Char) : List Char × List Char :=
  match l with
  | '.' :: t =>
    let ds := t.takeWhile isDig
    if ds.isEmpty then ([], l) else ('.' :: ds, t.dropWhile isDig)
  | _ => ([], l)

/-- The optional exponent group `([eE][-+]?\d+)?`. -/
def parseExpPart (l : List Char) : List Char × List Char :=
  match l with
  | [] => ([], l)
  | e :: t =>
    if e == 'e' || e == 'E' then
      match t with
      | [] => ([], l)
      | s :: t2 =>
        if s == '+' || s == '-' then
          let ds := t2.takeWhile isDig
          if ds.isEmpty then ([], l) else (e :: s :: ds, t2.dropWhile isDig)
        else
          let ds := t.takeWhile isDig
          if ds.isEmpty then ([], l) else (e :: ds, t.dropWhile isDig)
    else ([], l)

/-- A JSON number lexeme per Python's `NUMBER_RE`. -/
def parseNumber (l : List Char) : Option (List Char × List Char) :=
  match l with
  | '-' :: t =>
    match parseIntDigits t with
    | Option.none => Option.none
    | Option.some (ip, r1) =>
      let fr := parseFracPart r1
      let ex := parseExpPart fr.2
      Option.some ('-' :: (ip ++ fr.1 ++ ex.1), ex.2)
  | _ =>
    match parseIntDigits l with
    | Option.none => Option.none
    | Option.some (ip, r1) =>
      let fr := parseFracPart r1
      let ex := parseExpPart fr.2
      Option.some (ip ++ fr.1 ++ ex.1, ex.2)

/-- Match a fixed literal continuation (CPython checks `s[idx:idx+n] == lit`),
returning the remainder on success. -/
def stripLit : List Char → List Char → Option (List Char)
  | [], r => Option.some r
  | c :: p, d :: r => if d == c then stripLit p r else Option.none
  | _ :: _, [] => Option.none

/-- One fuel level of `json.loads`'s recursive-descent scanner: the body of
`scan_once` dispatching on the head character.  `objectRest` and `arrayRest`
are the continuations used for nested containers. -/
def valueF (objectRest arrayRest : List Char → Option (Json × List Char)) :
    List Char → Option (Json × List Char)
  | [] => Option.none
  | c :: t =>
    if c == '"' then
      (parseStringBody t).map fun r => (Json.str (String.mk r.1), r.2)
    else if c == '\x7b' then objectRest (skipJsonWs t)
    else if c == '[' then arrayRest (skipJsonWs t)
    else if c == 't' then
      (stripLit ['r', 'u', 'e'] t).map fun r => (Json.bool true, r)
    else if c == 'f' then
      (stripLit ['a', 'l', 's', 'e'] t).map fun r => (Json.bool false, r)
    else if c == 'n' then
      (stripLit ['u', 'l', 'l'] t).map fun r => (Json.null, r)
    else if c == 'N' then
      (stripLit ['a', 'N'] t).map fun r => (Json.num "NaN", r)
    else if c == 'I' then
      (stripLit ['n', 'f', 'i', 'n', 'i', 't', 'y'] t).map fun r =>
        (Json.num "Infinity", r)
    else if c == '-' then
      match stripLit ['I', 'n', 'f', 'i', 'n', 'i', 't', 'y'] t with
      | Option.some r => Option.some (Json.num "-Infinity", r)
      | Option.none => (parseNumber (c :: t)).map fun r => (Json.num (String.mk r.1), r.2)
    else if isDig c then
      (parseNumber (c :: t)).map fun r => (Json.num (String.mk r.1), r.2)
    else Option.none

/-- One or more `"key": value` members followed by `,` or `\x7d`; `value`
parses one value at the current nesting budget and `membersRest` continues
after a comma at a smaller budget. -/
def membersF (value : List Char → Option (Json × List Char))
    (membersRest : List Char → Option (List (String × Json) × List Char)) :
    List Char → Option (List (String × Json) × List Char)
  | c :: t =>
    if c == '"' then
      match parseStringBody t with
      | Option.none => Option.none
      | Option.some (key, r1) =>
        match skipJsonWs r1 with
        | d1 :: r2 =>
          if d1 == ':' then
            match value (skipJsonWs r2) with
            | Option.none => Option.none
            | Option.some (v, r3) =>
              match skipJsonWs r3 with
              | d2 :: r4 =>
                if d2 == ',' then
                  (membersRest (skipJsonWs r4)).map fun r =>
                    ((String.mk key, v) :: r.1, r.2)
                else if d2 == '\x7d' then Option.some ([(String.mk key, v)], r4)
                else Option.none
              | [] => Option.none
          else Option.none
        | [] => Option.none
    else Option.none
  | [] => Option.none

/-- The inside of an object after `\x7b`, leading whitespace skipped. -/
def objectRestF (members : List Char → Option (List (String × Json) × List Char)) :
    List Char → Option (Json × List Char)
  | d :: t =>
    if d == '\x7d' then Option.some (Json.obj [], t)
    else (members (d :: t)).map fun r => (Json.obj r.1, r.2)
  | [] => (members []).map fun r => (Json.obj r.1, r.2)

/-- One or more array elements separated by `,`, ended by `]`. -/
def elemsF (value : List Char → Option (Json × List Char))
    (elemsRest : List Char → Option (List Json × List Char)) :
    List Char → Option (List Json × List Char) :=
  fun l =>
    match value l with
    | Option.none => Option.none
    | Option.some (v, r1) =>
      match skipJsonWs r1 with
      | d :: r2 =>
        if d == ',' then (elemsRest (skipJsonWs r2)).map fun r => (v :: r.1, r.2)
        else if d == ']' then Option.some ([v], r2)
        else Option.none
      | [] => Option.none

/-- The inside of an array after `[`, leading whitespace skipped. -/
def arrayRestF (elems : List Char → Option (List Json × List Char)) :
    List Char → Option (Json × List Char)
  | d :: t =>
    if d == ']' then Option.some (Json.arr [], t)
    else (elems (d :: t)).map fun r => (Json.arr r.1, r.2)
  | [] => (elems []).map fun r => (Json.arr r.1, r.2)

/-- The five entry points of the scanner at one nesting budget. -/
structure ParserPack where
  value : List Char → Option (Json × List Char)
  members : List Char → Option (List (String × Json) × List Char)
  objectRest : List Char → Option (Json × List Char)
  elems : List Char → Option (List Json × List Char)
  arrayRest : List Char → Option (Json × List Char)

/-- The scanner, stratified by nesting budget: the Python scanner is
unboundedly recursive, and a budget larger than the document length (as
`jsonLoadsL` supplies) is never exhausted. -/
def parsersAux : ℕ → ParserPack
  | 0 =>
    let value : List Char → Option (Json × List Char) := fun _ => Option.none
    let members := membersF value fun _ => Option.none
    let elems := elemsF value fun _ => Option.none
    ⟨value, members, objectRestF members, elems, arrayRestF elems⟩
  | fuel + 1 =>
    let prev := parsersAux fuel
    let value := valueF prev.objectRest prev.arrayRest
    let members := membersF value prev.members
    let elems := elemsF value prev.elems
    ⟨value, members, objectRestF members, elems, arrayRestF elems⟩

/-- Parse one JSON value starting at a non-whitespace character. -/
def parseValue (fuel : ℕ) : List Char → Option (Json × List Char) :=
  (parsersAux fuel).value

def parseMembers (fuel : ℕ) : List Char → Option (List (String × Json) × List Char) :=
  (parsersAux fuel).members

def parseObjectRest (fuel : ℕ) : List Char → Option (Json × List Char) :=
  (parsersAux fuel).objectRest

def parseElems (fuel : ℕ) : List Char → Option (List Json × List Char) :=
  (parsersAux fuel).elems

def parseArrayRest (fuel : ℕ) : List Char → Option (Json × List Char) :=
  (parsersAux fuel).arrayRest

/-- The member continuation used after a comma at budget `fuel`. -/
def parseMembersPrev : ℕ → List Char → Option (List (String × Json) × List Char)
  | 0 => fun _ => Option.none
  | fuel + 1 => parseMembers fuel

/-- The element continuation used after a comma at budget `fuel`. -/
def parseElemsPrev : ℕ → List Char → Option (List Json × List Char)
  | 0 => fun _ => Option.none
  | fuel + 1 => parseElems fuel

/-- `json.loads` on a character list: strip the document's surrounding JSON
whitespace, parse one value, and require that nothing remains. -/
def jsonLoadsL (l : List Char) : Option Json :=
  let t := stripBoth isJsonWs l
  match parseValue (t.length + 1) t with
  | Option.some (v, []) => Option.some v
  | _ => Option.none

/-- Python's `json.loads` on strings. -/
def json_loads (s : String) : Option Json :=
  jsonLoadsL s.data

/-! ## `extract_json`

Embedding of `services/json_utils.py`, `extract_json` (lines 14-50):
strip, unwrap a Markdown code fence, attempt a direct parse, then recover by
slicing from the first `\x7b`/`[` to the last `\x7d`/`]`.  A raised
`json.JSONDecodeError` is `Option.none`. -/

def startsWithTicks (l : List Char) : Bool :=
  ("```".data).isPrefixOf l

def endsWithTicks (l : List Char) : Bool :=
  ("```".data).isSuffixOf l

/-- Python `s.find(c)` (`-1` when absent). -/
def pyFindZ (c : Char) (l : List Char) : ℤ :=
  match l.findIdx? (· == c) with
  | Option.some i => (i : ℤ)
  | Option.none => -1

/-- Python `s.rfind(c)` (`-1` when absent). -/
def pyRfindZ (c : Char) (l : List Char) : ℤ :=
  match l.reverse.findIdx? (· == c) with
  | Option.some i => (l.length : ℤ) - 1 - (i : ℤ)
  | Option.none => -1

def extractJsonL (l0 : List Char) : Option Json :=
  let s0 := stripBoth isPyWs l0
  let s :=
    if startsWithTicks s0 then
      let s1 := joinNL ((splitlinesPy s0).drop 1)
      let s2 :=
        if endsWithTicks (stripTrail isPyWs s1) then
          let r := stripTrail isPyWs s1
          r.take (r.length - 3)
        else s1
      stripBoth isPyWs s2
    else s0
  match jsonLoadsL s with
  | Option.some v => Option.some v
  | Option.none =>
    let fObj := pyFindZ '\x7b' s
    let fArr := pyFindZ '[' s
    let cands := (if fObj == -1 then [] else [fObj]) ++ (if fArr == -1 then [] else [fArr])
    match cands with
    | [] => Option.none
    | c :: cs =>
      let start := cs.foldl min c
      let stop := max (pyRfindZ '\x7d' s) (pyRfindZ ']' s)
      if stop ≤ start then Option.none
      else
        let snippet := (s.drop start.toNat).take (stop.toNat + 1 - start.toNat)
        jsonLoadsL snippet

/-- `extract_json` on strings. -/
def extract_json (text : String) : Option Json :=
  extractJsonL text.data

/-! ## Character classes of parsed values, and concrete fixtures -/

/-- The characters at which `parseValue` can succeed. -/
def isValueStart (c : Char) : Bool :=
  c == '"' || c == '\x7b' || c == '[' || c == 't' || c == 'f' || c == 'n' ||
  c == 'N' || c == 'I' || c == '-' || isDig c

/-- The characters a successfully parsed JSON value can end with: closing
quote, closing brace or bracket, a digit, or the final letter of
`true`/`false`, `null`, `NaN`, `Infinity`. -/
def isValueEnd (c : Char) : Bool :=
  c == '"' || c == '\x7d' || c == ']' || c == 'e' || c == 'l' ||
  c == 'N' || c == 'y' || isDig c

/-- A quiz interaction (used by the concrete manifests below). -/
def quizInteraction : Interaction :=
  { type := InteractionType.quiz, prompt := Option.some ("Q?"),
    options := ["a", "b"], correctAnswer := Option.some ("a") }

/-- A scene whose voiceover mentions checkpoint `cp2` with no matching visual
event, while its single event references `cp1`. -/
def sceneExtraVoiceCp : Scene :=
  { sceneId := "s1", purpose := "p", assetsUsed := ["asset_0"],
    voiceover := [{ text := "hello", checkpointId := "cp1" },
                  { text := "more", checkpointId := "cp2" }],
    events := [{ type := VisualEventType.draw, assetId := "asset_0",
                 checkpointId := "cp1", zone := Zone.centerMain,
                 role := Role.primaryDiagram, scaleHint := ScaleHint.large }],
    interaction := quizInteraction }

/-- Manifest with a voiceover-only checkpoint (must be accepted). -/
def manifestExtraVoiceCp : LessonManifest :=
  { lessonDurationSec := 120, scenes := [sceneExtraVoiceCp] }

/-- A minimal valid scene with no events. -/
def plainScene : Scene :=
  { sceneId := "s1", purpose := "p", assetsUsed := [],
    voiceover := [{ text := "hi", checkpointId := "cp1" }],
    events := [], interaction := quizInteraction }

/-- Manifest at the duration boundary `180.0` (must be accepted). -/
def manifestDur180 : LessonManifest :=
  { lessonDurationSec := 180, scenes := [plainScene] }

/-- Fixture storyboard overview. -/
def overviewFx : StoryboardOverview :=
  { totalImages := 5, visualFlow := "flow" }

/-- A prompt item carrying the mandatory sketchnote text. -/
def promptFxOk : ImagePromptItem :=
  { purpose := "p", layoutType := "Single", imagePrompt := mandatoryPromptText }

/-- A prompt item missing the mandatory sketchnote text. -/
def promptFxBad : ImagePromptItem :=
  { purpose := "p", layoutType := "Single", imagePrompt := "plain drawing" }

/-- A validated response with seven prompts (the spec's truncation test). -/
def respSeven : ImageSteeringResponse :=
  { storyboardOverview := overviewFx, images := List.replicate 7 promptFxOk }

/-- A validated response with four prompts. -/
def respFour : ImageSteeringResponse :=
  { storyboardOverview := overviewFx, images := List.replicate 4 promptFxOk }

/-- A validated five-prompt response whose first prompt lacks the mandatory
sketchnote text. -/
def respFiveBad : ImageSteeringResponse :=
  { storyboardOverview := overviewFx,
    images := promptFxBad :: List.replicate 4 promptFxOk }

/-! # Theorems -/

/-! ## General list and strip lemmas -/

theorem dropWhile_append_of_all {p : Char → Bool} :
    ∀ {a : List Char} (b : List Char), (∀ c ∈ a, p c = true) →
      (a ++ b).dropWhile p = b.dropWhile p := by
  intro a
  induction a with
  | nil => intro b _; rfl
  | cons x xs ih =>
    intro b h
    have hx : p x = true := h x (by simp)
    simpa [List.dropWhile_cons, hx] using ih b fun c hc => h c (by simp [hc])

theorem dropWhile_of_head_neg {p : Char → Bool} {c : Char} {l : List Char}
    (h : p c = false) : (c :: l).dropWhile p = c :: l := by
  simp [List.dropWhile_cons, h]

theorem stripTrail_append_all {p : Char → Bool} (x : List Char) {w : List Char}
    (h : ∀ c ∈ w, p c = true) : stripTrail p (x ++ w) = stripTrail p x := by
  unfold stripTrail
  rw [List.reverse_append, dropWhile_append_of_all x.reverse]
  intro c hc
  exact h c (List.mem_reverse.mp hc)

theorem stripTrail_of_getLast_neg {p : Char → Bool} {x : List Char} {c : Char}
    (hc : x.getLast? = some c) (h : p c = false) : stripTrail p x = x := by
  have hrev : x.reverse.head? = some c := by rw [List.head?_reverse]; exact hc
  unfold stripTrail
  cases hx : x.reverse with
  | nil => simp [hx] at hrev
  | cons d t =>
    rw [hx] at hrev
    have hdc : d = c := by simpa using hrev
    have hpd : p d = false := by rw [hdc]; exact h
    rw [dropWhile_of_head_neg hpd, ← hx, List.reverse_reverse]

theorem getLast?_append_right {l m : List Char} (h : m ≠ []) :
    (l ++ m).getLast? = m.getLast? := by
  rw [List.getLast?_append]
  cases hm : m.getLast? with
  | none => exact absurd (List.getLast?_eq_none_iff.mp hm) h
  | some c => simp

theorem ne_nil_of_getLast? {l : List Char} {c : Char} (h : l.getLast? = some c) :
    l ≠ [] := by
  intro he; subst he; simp at h

theorem getLast?_cons_of_some {a : List Char} {c : Char} (d : Char)
    (h : a.getLast? = some c) : (d :: a).getLast? = some c := by
  rw [List.getLast?_cons]
  simp [h]

/-- Every list decomposes around its stripped core, with the discarded
margins satisfying the predicate. -/
theorem stripBoth_decomposition (p : Char → Bool) (l : List Char) :
    ∃ a b, l = a ++ stripBoth p l ++ b ∧
      (∀ c ∈ a, p c = true) ∧ (∀ c ∈ b, p c = true) := by
  refine ⟨l.takeWhile p, ((l.dropWhile p).reverse.takeWhile p).reverse, ?_, ?_, ?_⟩
  · conv_lhs => rw [← List.takeWhile_append_dropWhile p l]
    rw [List.append_assoc]
    congr 1
    unfold stripBoth stripTrail
    conv_lhs =>
      rw [← List.reverse_reverse (l.dropWhile p),
        ← List.takeWhile_append_dropWhile p (l.dropWhile p).reverse]
    rw [List.reverse_append]
  · intro c hc; exact List.mem_takeWhile_imp hc
  · intro c hc
    exact List.mem_takeWhile_imp (List.mem_reverse.mp hc)

theorem stripBoth_of_ends_neg {p : Char → Bool} {c d : Char} {m : List Char}
    (hl : (c :: m).getLast? = some d) (hc : p c = false) (hd : p d = false) :
    stripBoth p (c :: m) = c :: m := by
  unfold stripBoth
  rw [dropWhile_of_head_neg hc, stripTrail_of_getLast_neg hl hd]

/-! ## C7: color-key background removal -/

/-- C7: a pixel's alpha is 0 exactly when its HSV value is in the white band
and in neither protected accent band; every other pixel gets alpha 255; on
the pure-white test image with one teal pixel, the alpha channel is 0
everywhere except that pixel, which is 255. -/
theorem color_key_transparency :
    (∀ p : HSV, alphaOf p = 0 ↔
      whiteMask p = true ∧ tealMask p = false ∧ orangeMask p = false) ∧
    (∀ p : HSV, alphaOf p = 0 ∨ alphaOf p = 255) ∧
    (∀ i j : Fin 3, alphaOf (whiteWithTealPixel i j) =
      if i = 1 ∧ j = 1 then 255 else 0) := by
  refine ⟨?_, ?_, ?_⟩
  · intro p
    unfold alphaOf backgroundMask accentMask
    constructor
    · intro h
      by_cases hb : (whiteMask p && !(tealMask p || orangeMask p)) = true
      · rcases Bool.and_eq_true .. |>.mp hb with ⟨hw, hn⟩
        simp only [Bool.not_eq_true', Bool.or_eq_false_iff] at hn
        exact ⟨hw, hn.1, hn.2⟩
      · rw [if_neg hb] at h; omega
    · rintro ⟨hw, ht, ho⟩
      rw [if_pos (by simp [hw, ht, ho])]
  · intro p
    unfold alphaOf
    by_cases hb : backgroundMask p = true
    · left; rw [if_pos hb]
    · right; rw [if_neg hb]
  · decide

/-! ## C1: audio duration reconciliation (corrected) -/

/-- C1 counterexample: with manifest duration 100 and measured audio
duration 111, the handler logs a warning but still returns the lesson —
the claim's required rejection does not happen. -/
theorem reconcile_111_counterexample :
    (reconcileAudio true 111 100).lessonReturned = true ∧
    (reconcileAudio true 111 100).warned = true := by
  constructor
  · rfl
  · unfold reconcileAudio
    norm_num

/-- C1 amended: reconciliation never rejects the lesson.  For every input the
handler returns the lesson, and the only effect of a duration mismatch is the
warning, which fires exactly when the manifest duration is positive and the
symmetric relative deviation `|audio - manifest| / manifest * 100` exceeds
10; in particular 109s passes silently while both 111s and 50s are returned
with a warning. -/
theorem reconcile_never_rejects :
    (∀ (hasAudio : Bool) (a m : ℚ),
      (reconcileAudio hasAudio a m).lessonReturned = true) ∧
    (∀ (a m : ℚ), (reconcileAudio true a m).warned = true ↔
      0 < m ∧ |a - m| / m * 100 > 10) ∧
    (reconcileAudio true 109 100).warned = false ∧
    (reconcileAudio true 111 100).lessonReturned = true ∧
    (reconcileAudio true 50 100).warned = true ∧
    (reconcileAudio true 50 100).lessonReturned = true := by
  refine ⟨?_, ?_, ?_, ?_, ?_, ?_⟩
  · intro hasAudio a m
    unfold reconcileAudio
    split
    · split
      · rfl
      · rfl
    · rfl
  · intro a m
    unfold reconcileAudio
    split
    · split
      · rename_i hm
        simp only [decide_eq_true_eq]
        exact ⟨fun hgt => ⟨hm, hgt⟩, fun hp => hp.2⟩
      · rename_i hm
        simp only [Bool.false_eq_true, false_iff, not_and]
        intro h0
        exact absurd h0 hm
    · rename_i hfalse
      exact absurd rfl hfalse
  · unfold reconcileAudio
    norm_num
  · rfl
  · unfold reconcileAudio
    norm_num
  · rfl

/-! ## Manifest validator: shared characterisation -/

theorem validManifest_spec {m : LessonManifest} (h : validManifest m = true) :
    0 < m.lessonDurationSec ∧ m.lessonDurationSec ≤ 180 ∧
    1 ≤ m.scenes.length ∧ m.scenes.length ≤ 5 ∧
    (∀ sc ∈ m.scenes, (∀ e ∈ sc.events, validAssetId e = true) ∧
      sceneCheckpointsOk sc = true) ∧
    ∃ sc ∈ m.scenes, sc.interaction.type ≠ InteractionType.none := by
  unfold validManifest at h
  simp only [Bool.and_eq_true, decide_eq_true_eq, List.all_eq_true,
    List.any_eq_true] at h
  obtain ⟨⟨⟨⟨⟨h1, h2⟩, h3⟩, h4⟩, h5⟩, h6⟩ := h
  exact ⟨h1, h2, h3, h4, h5, h6⟩

/-! ## C4: duration and scene-count bounds -/

/-- C4: every accepted manifest has duration in `(0, 180]` and 1-5 scenes;
duration exactly 180 is accepted; duration `180.01` or `≤ 0` is rejected;
an empty scene list is rejected; six scenes are rejected. -/
theorem manifest_duration_scene_bounds :
    (∀ m : LessonManifest, validManifest m = true →
      0 < m.lessonDurationSec ∧ m.lessonDurationSec ≤ 180 ∧
      1 ≤ m.scenes.length ∧ m.scenes.length ≤ 5) ∧
    validManifest manifestDur180 = true ∧
    (∀ m : LessonManifest, m.lessonDurationSec = 18001 / 100 →
      validManifest m = false) ∧
    (∀ m : LessonManifest, m.lessonDurationSec ≤ 0 → validManifest m = false) ∧
    (∀ m : LessonManifest, m.scenes = [] → validManifest m = false) ∧
    (∀ m : LessonManifest, m.scenes.length = 6 → validManifest m = false) := by
  refine ⟨?_, ?_, ?_, ?_, ?_, ?_⟩
  · intro m h
    obtain ⟨h1, h2, h3, h4, _, _⟩ := validManifest_spec h
    exact ⟨h1, h2, h3, h4⟩
  · decide
  · intro m hd
    rw [Bool.eq_false_iff]
    intro hv
    obtain ⟨_, h2, _⟩ := validManifest_spec hv
    rw [hd] at h2
    norm_num at h2
  · intro m hd
    rw [Bool.eq_false_iff]
    intro hv
    obtain ⟨h1, _⟩ := validManifest_spec hv
    exact absurd hd (not_le.mpr h1)
  · intro m hs
    rw [Bool.eq_false_iff]
    intro hv
    obtain ⟨_, _, h3, _⟩ := validManifest_spec hv
    rw [hs] at h3
    simp at h3
  · intro m hs
    rw [Bool.eq_false_iff]
    intro hv
    obtain ⟨_, _, _, h4, _⟩ := validManifest_spec hv
    omega

/-- C4 witness: the bound statement instantiated at the accepted boundary
manifest of duration 180. -/
theorem manifest_duration_scene_bounds_witness :
    0 < manifestDur180.lessonDurationSec ∧
    manifestDur180.lessonDurationSec ≤ 180 ∧
    1 ≤ manifestDur180.scenes.length ∧ manifestDur180.scenes.length ≤ 5 :=
  manifest_duration_scene_bounds.1 manifestDur180
    manifest_duration_scene_bounds.2.1

/-! ## C3: one-directional checkpoint consistency -/

/-- C3: in every accepted manifest, every visual event's checkpoint id occurs
among its scene's voiceover checkpoint ids; a voiceover-only checkpoint is
accepted (concrete manifest), while a manifest containing an event checkpoint
matched by no voiceover segment of its scene is rejected. -/
theorem checkpoint_subset_one_directional :
    (∀ m : LessonManifest, validManifest m = true →
      ∀ sc ∈ m.scenes, ∀ e ∈ sc.events,
        ∃ seg ∈ sc.voiceover, seg.checkpointId = e.checkpointId) ∧
    validManifest manifestExtraVoiceCp = true ∧
    (∀ m : LessonManifest, ∀ sc ∈ m.scenes, ∀ e ∈ sc.events,
      (∀ seg ∈ sc.voiceover, seg.checkpointId ≠ e.checkpointId) →
      validManifest m = false) := by
  have key : ∀ m : LessonManifest, validManifest m = true →
      ∀ sc ∈ m.scenes, ∀ e ∈ sc.events,
        ∃ seg ∈ sc.voiceover, seg.checkpointId = e.checkpointId := by
    intro m h sc hsc e he
    obtain ⟨_, _, _, _, h5, _⟩ := validManifest_spec h
    have hck := (h5 sc hsc).2
    unfold sceneCheckpointsOk at hck
    rw [List.all_eq_true] at hck
    have := hck e he
    rw [List.any_eq_true] at this
    obtain ⟨seg, hseg, hbeq⟩ := this
    exact ⟨seg, hseg, beq_iff_eq.mp hbeq⟩
  refine ⟨key, by decide, ?_⟩
  intro m sc hsc e he hnone
  rw [Bool.eq_false_iff]
  intro hv
  obtain ⟨seg, hseg, heq⟩ := key m hv sc hsc e he
  exact hnone seg hseg heq

/-- C3 witness: the subset property instantiated at the concrete accepted
manifest whose scene has a voiceover-only checkpoint. -/
theorem checkpoint_subset_witness :
    ∀ sc ∈ manifestExtraVoiceCp.scenes, ∀ e ∈ sc.events,
      ∃ seg ∈ sc.voiceover, seg.checkpointId = e.checkpointId :=
  checkpoint_subset_one_directional.1 manifestExtraVoiceCp
    checkpoint_subset_one_directional.2.1

/-! ## C6: asset pipeline is order-preserving and all-or-nothing -/

theorem collect_ok_iff {ε : Type} :
    ∀ (rs : List (Except ε (List ℕ))) (out : List (List ℕ)),
      collectAssetResults rs = Except.ok out ↔ rs = out.map Except.ok := by
  intro rs
  induction rs with
  | nil =>
    intro out
    constructor
    · intro h
      cases out with
      | nil => rfl
      | cons o os => simp [collectAssetResults] at h
    · intro h
      rw [show out = [] from by cases out <;> simp_all]
      rfl
  | cons r rs ih =>
    intro out
    cases r with
    | error e =>
      constructor
      · intro h; simp [collectAssetResults] at h
      · intro h
        cases out with
        | nil => simp at h
        | cons o os => simp at h
    | ok b =>
      constructor
      · intro h
        rw [show collectAssetResults (Except.ok b :: rs) =
          (collectAssetResults rs).map (fun l => b :: l) from rfl] at h
        cases hrec : collectAssetResults rs with
        | error e => rw [hrec] at h; simp [Except.map] at h
        | ok os =>
          rw [hrec] at h
          simp only [Except.map] at h
          injection h with h
          rw [← h]
          simp [(ih os).mp hrec]
      · intro h
        cases out with
        | nil => simp at h
        | cons o os =>
          simp at h
          obtain ⟨hob, hrest⟩ := h
          rw [show collectAssetResults (Except.ok b :: rs) =
            (collectAssetResults rs).map (fun l => b :: l) from rfl]
          rw [(ih os).mpr hrest]
          simp [Except.map, hob]

theorem collect_error_first {ε : Type} :
    ∀ (pre : List (List ℕ)) (e : ε) (post : List (Except ε (List ℕ))),
      collectAssetResults (pre.map Except.ok ++ Except.error e :: post) =
        Except.error e := by
  intro pre
  induction pre with
  | nil => intro e post; rfl
  | cons b bs ih =>
    intro e post
    rw [show (b :: bs).map Except.ok ++ Except.error e :: post =
      Except.ok b :: (bs.map Except.ok ++ Except.error e :: post) from rfl]
    rw [show collectAssetResults (Except.ok b :: (bs.map Except.ok ++ Except.error e :: post)) =
      (collectAssetResults (bs.map Except.ok ++ Except.error e :: post)).map
        fun l => b :: l from rfl]
    rw [ih e post]
    rfl

theorem map_ok_index {ε : Type} (f : String → Except ε (List ℕ)) :
    ∀ (ps : List String) (out : List (List ℕ)),
      ps.map f = out.map Except.ok →
      ∀ i (h1 : i < ps.length) (h2 : i < out.length),
        f (ps.get ⟨i, h1⟩) = Except.ok (out.get ⟨i, h2⟩) := by
  intro ps
  induction ps with
  | nil => intro out h i h1 h2; simp at h1
  | cons p ps ih =>
    intro out h i h1 h2
    cases out with
    | nil => simp at h2
    | cons o os =>
      simp only [List.map] at h
      injection h with hpo hrest
      cases i with
      | zero => simpa using hpo
      | succ j =>
        exact ih os hrest j (by simpa using h1) (by simpa using h2)

/-- C6: a successful `generate_assets` call returns exactly one processed
byte-string per prompt, in prompt order (the i-th output is the result of
the i-th prompt's generate-then-process job), and as soon as the gathered
per-prompt outcomes contain a failure, the whole call raises the first such
error — no partial asset list is ever returned. -/
theorem asset_pipeline_order_allornothing {ε : Type}
    (gen : String → Except ε (List ℕ)) (proc : List ℕ → Except ε (List ℕ))
    (prompts : List String) :
    (∀ out, generateAssets gen proc prompts = Except.ok out →
      out.length = prompts.length ∧
      ∀ i (h1 : i < prompts.length) (h2 : i < out.length),
        generateSingleAsset gen proc (prompts.get ⟨i, h1⟩) =
          Except.ok (out.get ⟨i, h2⟩)) ∧
    (∀ (pre : List (List ℕ)) (e : ε) (post : List (Except ε (List ℕ))),
      prompts.map (generateSingleAsset gen proc) =
        pre.map Except.ok ++ Except.error e :: post →
      generateAssets gen proc prompts = Except.error e) := by
  constructor
  · intro out h
    unfold generateAssets at h
    have hmap := (collect_ok_iff _ out).mp h
    constructor
    · have := congrArg List.length hmap
      simpa using this.symm
    · exact map_ok_index (generateSingleAsset gen proc) prompts out hmap
  · intro pre e post h
    unfold generateAssets
    rw [h]
    exact collect_error_first pre e post

/-- C6 witness: the order-preservation half applied to a concrete two-prompt
run, and the all-or-nothing half applied to a run whose second job fails. -/
theorem asset_pipeline_witness :
    (([[0, 1], [0, 1]] : List (List ℕ)).length =
      (["a", "b"] : List String).length ∧
      ∀ i (h1 : i < (["a", "b"] : List String).length)
        (h2 : i < ([[0, 1], [0, 1]] : List (List ℕ)).length),
        generateSingleAsset (fun _ => (Except.ok [1] : Except Unit (List ℕ)))
          (fun b => Except.ok (0 :: b)) ((["a", "b"] : List String).get ⟨i, h1⟩) =
          Except.ok (([[0, 1], [0, 1]] : List (List ℕ)).get ⟨i, h2⟩)) ∧
    generateAssets (fun s => if s == "b" then Except.error () else Except.ok [1])
      (fun b => Except.ok (0 :: b)) ["a", "b"] = Except.error () := by
  constructor
  · exact (asset_pipeline_order_allornothing _ _ _).1 _ rfl
  · exact (asset_pipeline_order_allornothing _ _ _).2 [[0, 1]] () [] rfl

/-! ## C2: the generate-validate-retry protocol -/

theorem extractTopics_step0_bad (pl : ℕ → LibReply)
    (h : pl 0 = LibReply.badJson ∨ pl 0 = LibReply.badSchema) :
    extractTopics pl 0 = ((extractTopics pl 1).1, (extractTopics pl 1).2 + 1) := by
  rcases h with h | h <;> rw [extractTopics.eq_def, h] <;> exact rfl

theorem extractTopics_at1 (pl : ℕ → LibReply) :
    extractTopics pl 1 =
      match pl 1 with
      | LibReply.badJson => (Except.error LibError.invalidJson, 1)
      | LibReply.badSchema => (Except.error LibError.validationFailed, 1)
      | LibReply.okTopics t => (Except.ok t, 1) := by
  cases h1 : pl 1 <;> rw [extractTopics.eq_def, h1] <;> simp [h1]

theorem extractTopics_step0_ok (pl : ℕ → LibReply) (t : List TopicItem)
    (h : pl 0 = LibReply.okTopics t) : extractTopics pl 0 = (Except.ok t, 1) := by
  rw [extractTopics.eq_def, h]

theorem generateLessonManifest_step0_bad (assetIds : List String)
    (pd : ℕ → DirReply)
    (h : pd 0 = DirReply.badJson ∨
      ∃ m, pd 0 = DirReply.manifest m ∧ validManifest m = false) :
    generateLessonManifest assetIds pd 0 =
      ((generateLessonManifest assetIds pd 1).1,
        (generateLessonManifest assetIds pd 1).2 + 1) := by
  rcases h with h | ⟨m, h, hv⟩
  · rw [generateLessonManifest.eq_def, h]
    exact rfl
  · rw [generateLessonManifest.eq_def, h]
    dsimp only
    rw [hv]
    exact rfl

theorem generateLessonManifest_terminal (assetIds : List String)
    (pd : ℕ → DirReply) (rc : ℕ) (m : LessonManifest)
    (h : pd rc = DirReply.manifest m) (hv : validManifest m = true) :
    generateLessonManifest assetIds pd rc =
      (if 180 < m.lessonDurationSec then (Except.error DirError.invalidDuration, 1)
       else if 5 < m.scenes.length then (Except.error DirError.invalidSceneCount, 1)
       else if m.scenes.all (fun sc => sc.events.all fun e => assetIds.contains e.assetId)
       then (Except.ok m, 1)
       else (Except.error DirError.invalidAssetRef, 1)) := by
  rw [generateLessonManifest.eq_def, h]
  dsimp only
  rw [hv]
  exact rfl

theorem generateLessonManifest_at1_bad (assetIds : List String)
    (pd : ℕ → DirReply)
    (h : pd 1 = DirReply.badJson ∨
      ∃ m, pd 1 = DirReply.manifest m ∧ validManifest m = false) :
    ∃ e, generateLessonManifest assetIds pd 1 = (Except.error e, 1) := by
  rcases h with h | ⟨m, h, hv⟩
  · exact ⟨DirError.invalidJson, by rw [generateLessonManifest.eq_def, h]; exact rfl⟩
  · exact ⟨DirError.validationFailed, by
      rw [generateLessonManifest.eq_def, h]
      dsimp only
      rw [hv]
      exact rfl⟩

theorem generateLessonManifest_ok_valid (assetIds : List String)
    (pd : ℕ → DirReply) (rc : ℕ) (m : LessonManifest)
    (hm : (generateLessonManifest assetIds pd rc).1 = Except.ok m) :
    validManifest m = true := by
  cases h : pd rc with
  | badJson =>
    rw [generateLessonManifest.eq_def, h] at hm
    dsimp only at hm
    by_cases hrc : rc < 1
    · rw [if_pos hrc] at hm
      dsimp only at hm
      cases h1 : pd (rc + 1) with
      | badJson =>
        rw [generateLessonManifest.eq_def, h1] at hm
        dsimp only at hm
        by_cases hrc1 : rc + 1 < 1
        · omega
        · rw [if_neg hrc1] at hm
          simp at hm
      | manifest m1 =>
        rw [generateLessonManifest.eq_def, h1] at hm
        dsimp only at hm
        cases hv1 : validManifest m1 with
        | false =>
          rw [hv1] at hm
          by_cases hrc1 : rc + 1 < 1
          · omega
          · simp only [Bool.false_eq_true, if_false, if_neg hrc1] at hm
            simp at hm
        | true =>
          rw [hv1] at hm
          simp only [if_true] at hm
          split at hm
          · simp at hm
          · split at hm
            · simp at hm
            · split at hm
              · injection hm with hmm
                rw [← hmm]; exact hv1
              · simp at hm
    · rw [if_neg hrc] at hm
      simp at hm
  | manifest m0 =>
    rw [generateLessonManifest.eq_def, h] at hm
    dsimp only at hm
    cases hv0 : validManifest m0 with
    | false =>
      rw [hv0] at hm
      by_cases hrc : rc < 1
      · simp only [Bool.false_eq_true, if_false, if_pos hrc] at hm
        cases h1 : pd (rc + 1) with
        | badJson =>
          rw [generateLessonManifest.eq_def, h1] at hm
          dsimp only at hm
          by_cases hrc1 : rc + 1 < 1
          · omega
          · rw [if_neg hrc1] at hm
            simp at hm
        | manifest m1 =>
          rw [generateLessonManifest.eq_def, h1] at hm
          dsimp only at hm
          cases hv1 : validManifest m1 with
          | false =>
            rw [hv1] at hm
            by_cases hrc1 : rc + 1 < 1
            · omega
            · simp only [Bool.false_eq_true, if_false, if_neg hrc1] at hm
              simp at hm
          | true =>
            rw [hv1] at hm
            simp only [if_true] at hm
            split at hm
            · simp at hm
            · split at hm
              · simp at hm
              · split at hm
                · injection hm with hmm
                  rw [← hmm]; exact hv1
                · simp at hm
      · simp only [Bool.false_eq_true, if_false, if_neg hrc] at hm
        simp at hm
    | true =>
      rw [hv0] at hm
      simp only [if_true] at hm
      split at hm
      · simp at hm
      · split at hm
        · simp at hm
        · split at hm
          · injection hm with hmm
            rw [← hmm]; exact hv0
          · simp at hm

/-- C2: the generate-validate-retry protocol of the topic extractor and the
lesson director performs exactly one retry.  When every provider response
fails JSON parsing or schema validation, exactly 2 provider calls happen and
a terminal typed error is raised; no run ever makes more than 2 calls; and a
returned result always comes from a provider reply that passed validation
(for the director, a manifest satisfying `validManifest`). -/
theorem retry_exactly_once :
    (∀ pl : ℕ → LibReply,
      (∀ n, pl n = LibReply.badJson ∨ pl n = LibReply.badSchema) →
      (extractTopics pl 0).2 = 2 ∧
      ∃ e, (extractTopics pl 0).1 = Except.error e) ∧
    (∀ (assetIds : List String) (pd : ℕ → DirReply),
      (∀ n, pd n = DirReply.badJson ∨
        ∃ m, pd n = DirReply.manifest m ∧ validManifest m = false) →
      (generateLessonManifest assetIds pd 0).2 = 2 ∧
      ∃ e, (generateLessonManifest assetIds pd 0).1 = Except.error e) ∧
    (∀ pl : ℕ → LibReply, (extractTopics pl 0).2 ≤ 2) ∧
    (∀ (pl : ℕ → LibReply) (t : List TopicItem),
      (extractTopics pl 0).1 = Except.ok t →
      pl 0 = LibReply.okTopics t ∨ pl 1 = LibReply.okTopics t) ∧
    (∀ (assetIds : List String) (pd : ℕ → DirReply) (m : LessonManifest),
      (generateLessonManifest assetIds pd 0).1 = Except.ok m →
      validManifest m = true) := by
  refine ⟨?_, ?_, ?_, ?_,
    fun assetIds pd m => generateLessonManifest_ok_valid assetIds pd 0 m⟩
  · intro pl h
    rw [extractTopics_step0_bad pl (h 0), extractTopics_at1 pl]
    rcases h 1 with h1 | h1 <;> rw [h1]
    · exact ⟨rfl, LibError.invalidJson, rfl⟩
    · exact ⟨rfl, LibError.validationFailed, rfl⟩
  · intro assetIds pd h
    rw [generateLessonManifest_step0_bad assetIds pd (h 0)]
    obtain ⟨e, he⟩ := generateLessonManifest_at1_bad assetIds pd (h 1)
    rw [he]
    exact ⟨rfl, e, rfl⟩
  · intro pl
    cases h0 : pl 0 with
    | badJson =>
      rw [extractTopics_step0_bad pl (Or.inl h0), extractTopics_at1 pl]
      cases pl 1 <;> simp
    | badSchema =>
      rw [extractTopics_step0_bad pl (Or.inr h0), extractTopics_at1 pl]
      cases pl 1 <;> simp
    | okTopics t =>
      rw [extractTopics_step0_ok pl t h0]
      simp
  · intro pl t ht
    cases h0 : pl 0 with
    | badJson =>
      rw [extractTopics_step0_bad pl (Or.inl h0), extractTopics_at1 pl] at ht
      cases h1 : pl 1 with
      | badJson => rw [h1] at ht; simp at ht
      | badSchema => rw [h1] at ht; simp at ht
      | okTopics t1 =>
        rw [h1] at ht
        injection ht with htt
        exact Or.inr (by rw [htt])
    | badSchema =>
      rw [extractTopics_step0_bad pl (Or.inr h0), extractTopics_at1 pl] at ht
      cases h1 : pl 1 with
      | badJson => rw [h1] at ht; simp at ht
      | badSchema => rw [h1] at ht; simp at ht
      | okTopics t1 =>
        rw [h1] at ht
        injection ht with htt
        exact Or.inr (by rw [htt])
    | okTopics t0 =>
      rw [extractTopics_step0_ok pl t0 h0] at ht
      injection ht with htt
      exact Or.inl (by rw [htt])

/-- C2 witness: a provider stub that always answers malformed JSON makes
exactly two calls and ends in a terminal error, for both generators. -/
theorem retry_exactly_once_witness :
    ((extractTopics (fun _ => LibReply.badJson) 0).2 = 2 ∧
      ∃ e, (extractTopics (fun _ => LibReply.badJson) 0).1 = Except.error e) ∧
    ((generateLessonManifest [] (fun _ => DirReply.badJson) 0).2 = 2 ∧
      ∃ e, (generateLessonManifest [] (fun _ => DirReply.badJson) 0).1 =
        Except.error e) :=
  ⟨retry_exactly_once.1 (fun _ => LibReply.badJson) (fun _ => Or.inl rfl),
    retry_exactly_once.2.1 [] (fun _ => DirReply.badJson) (fun _ => Or.inl rfl)⟩

/-! ## C5 and C10: the image-prompt planner -/

theorem genImg_at1 (p : ℕ → ImgReply) :
    generateImagePrompts p 1 =
      match p 1 with
      | ImgReply.empty => (Except.error ImgError.emptyResponse, 1)
      | ImgReply.badJson => (Except.error ImgError.invalidJson, 1)
      | ImgReply.badSchema => (Except.error ImgError.validationFailed, 1)
      | ImgReply.ok r =>
        let v := if r.images.length > 5 then { r with images := r.images.take 5 } else r
        if v.images.length < 5 then
          (Except.error (ImgError.wrongCount v.images.length 5), 1)
        else if (missingTextIndices v.images).isEmpty then (Except.ok v, 1)
        else (Except.error (ImgError.missingMandatoryText (missingTextIndices v.images)), 1) := by
  cases h1 : p 1 <;> rw [generateImagePrompts.eq_def, h1] <;> exact rfl

theorem genImg_step0 (p : ℕ → ImgReply) :
    generateImagePrompts p 0 =
      match p 0 with
      | ImgReply.empty => (Except.error ImgError.emptyResponse, 1)
      | ImgReply.badJson =>
        ((generateImagePrompts p 1).1, (generateImagePrompts p 1).2 + 1)
      | ImgReply.badSchema =>
        ((generateImagePrompts p 1).1, (generateImagePrompts p 1).2 + 1)
      | ImgReply.ok r =>
        let v := if r.images.length > 5 then { r with images := r.images.take 5 } else r
        if v.images.length < 5 then
          ((generateImagePrompts p 1).1, (generateImagePrompts p 1).2 + 1)
        else if (missingTextIndices v.images).isEmpty then (Except.ok v, 1)
        else ((generateImagePrompts p 1).1, (generateImagePrompts p 1).2 + 1) := by
  cases h0 : p 0 <;> rw [generateImagePrompts.eq_def, h0] <;> exact rfl

theorem missingTextIndicesFrom_nil_iff :
    ∀ (l : List ImagePromptItem) (i : ℕ), missingTextIndicesFrom i l = [] ↔
      ∀ x ∈ l, containsLower x.imagePrompt mandatoryPromptText = true := by
  intro l
  induction l with
  | nil => intro i; simp [missingTextIndicesFrom]
  | cons a t ih =>
    intro i
    by_cases hc : containsLower a.imagePrompt mandatoryPromptText = true
    · simp [missingTextIndicesFrom, hc, ih (i + 1)]
    · constructor
      · intro h
        rw [missingTextIndicesFrom, if_neg hc] at h
        simp at h
      · intro h
        exact absurd (h a (by simp)) hc

theorem genImg_vlen_le (r : ImageSteeringResponse) :
    (if r.images.length > 5 then { r with images := r.images.take 5 } else r).images.length ≤ 5 := by
  split
  · simp
  · omega

theorem genImg_ok_inv1 (p : ℕ → ImgReply) (out : ImageSteeringResponse)
    (h : (generateImagePrompts p 1).1 = Except.ok out) :
    out.images.length = 5 ∧ missingTextIndices out.images = [] := by
  rw [genImg_at1 p] at h
  rcases hp : p 1 with _ | _ | _ | r <;> rw [hp] at h
  · simp at h
  · simp at h
  · simp at h
  · dsimp only at h
    split at h
    · rename_i hgt
      split at h
      · simp at h
      · split at h
        · rename_i hmiss
          injection h with hout
          subst hout
          exact ⟨by simp; omega, List.isEmpty_iff.mp hmiss⟩
        · simp at h
    · rename_i hgt
      split at h
      · simp at h
      · rename_i hlt
        split at h
        · rename_i hmiss
          injection h with hout
          subst hout
          exact ⟨by omega, List.isEmpty_iff.mp hmiss⟩
        · simp at h

theorem genImg_ok_inv0 (p : ℕ → ImgReply) (out : ImageSteeringResponse)
    (h : (generateImagePrompts p 0).1 = Except.ok out) :
    out.images.length = 5 ∧ missingTextIndices out.images = [] := by
  rw [genImg_step0 p] at h
  rcases hp : p 0 with _ | _ | _ | r <;> rw [hp] at h
  · simp at h
  · exact genImg_ok_inv1 p out h
  · exact genImg_ok_inv1 p out h
  · dsimp only at h
    split at h
    · rename_i hgt
      split at h
      · exact genImg_ok_inv1 p out h
      · split at h
        · rename_i hmiss
          injection h with hout
          subst hout
          refine ⟨by simp; omega, ?_⟩
          exact List.isEmpty_iff.mp hmiss
        · exact genImg_ok_inv1 p out h
    · rename_i hgt
      split at h
      · exact genImg_ok_inv1 p out h
      · rename_i hlt
        split at h
        · rename_i hmiss
          injection h with hout
          subst hout
          refine ⟨by omega, ?_⟩
          exact List.isEmpty_iff.mp hmiss
        · exact genImg_ok_inv1 p out h

theorem genImg_congr_at1 (p q : ℕ → ImgReply) (h : p 1 = q 1) :
    generateImagePrompts p 1 = generateImagePrompts q 1 := by
  rw [genImg_at1 p, genImg_at1 q, h]

theorem genImg_v_of_le (r : ImageSteeringResponse) (h : r.images.length ≤ 5) :
    (if r.images.length > 5 then { r with images := r.images.take 5 } else r) = r :=
  if_neg (by omega)

theorem genImg_v_of_gt (r : ImageSteeringResponse) (h : 5 < r.images.length) :
    (if r.images.length > 5 then { r with images := r.images.take 5 } else r) =
      { r with images := r.images.take 5 } :=
  if_pos h

/-- C5: the planner returns exactly 5 prompts on success.  A validated
response with more than 5 prompts is deterministically truncated to its
first 5, with no retry caused by the over-count (the run is identical to one
whose first reply already was the truncated response); a response with at
least 5 prompts whose first 5 carry the mandatory text succeeds in one call
with exactly the first 5 prompts in their original order; and when both
calls return fewer than 5 validated prompts, the planner retries once and
then raises the terminal wrong-count error instead of padding. -/
theorem image_planner_five_prompts :
    (∀ (p : ℕ → ImgReply) (r : ImageSteeringResponse), p 0 = ImgReply.ok r →
      5 < r.images.length →
      generateImagePrompts p 0 =
        generateImagePrompts
          (fun n => if n = 0 then ImgReply.ok { r with images := r.images.take 5 }
            else p n) 0) ∧
    (∀ (p : ℕ → ImgReply) (out : ImageSteeringResponse),
      (generateImagePrompts p 0).1 = Except.ok out → out.images.length = 5) ∧
    (∀ (p : ℕ → ImgReply) (r : ImageSteeringResponse), p 0 = ImgReply.ok r →
      5 ≤ r.images.length → missingTextIndices (r.images.take 5) = [] →
      generateImagePrompts p 0 =
        (Except.ok { r with images := r.images.take 5 }, 1)) ∧
    (∀ (p : ℕ → ImgReply) (r0 r1 : ImageSteeringResponse),
      p 0 = ImgReply.ok r0 → r0.images.length < 5 →
      p 1 = ImgReply.ok r1 → r1.images.length < 5 →
      generateImagePrompts p 0 =
        (Except.error (ImgError.wrongCount r1.images.length 5), 2)) := by
  refine ⟨?_, fun p out h => (genImg_ok_inv0 p out h).1, ?_, ?_⟩
  · intro p r hp h5
    rw [genImg_step0 p, genImg_step0 (fun n => if n = 0 then
      ImgReply.ok { r with images := r.images.take 5 } else p n), hp]
    rw [if_pos rfl]
    dsimp only
    rw [genImg_v_of_gt r h5]
    rw [genImg_v_of_le { r with images := r.images.take 5 }
      (by simp only [List.length_take]; omega)]
    rw [genImg_congr_at1 p (fun n => if n = 0 then
      ImgReply.ok { r with images := r.images.take 5 } else p n) rfl]
  · intro p r hp h5 hmiss
    rw [genImg_step0 p, hp]
    dsimp only
    rcases Nat.lt_or_ge 5 r.images.length with hgt | hge
    · rw [genImg_v_of_gt r hgt]
      rw [if_neg (by simp only [List.length_take]; omega)]
      rw [show ({ r with images := r.images.take 5 } :
        ImageSteeringResponse).images = r.images.take 5 from rfl, hmiss]
      rfl
    · have hlen : r.images.length = 5 := by omega
      rw [genImg_v_of_le r (by omega)]
      rw [if_neg (by omega)]
      have htake : r.images.take 5 = r.images := List.take_of_length_le (by omega)
      rw [htake] at hmiss
      rw [hmiss]
      have hr : ({ r with images := r.images.take 5 } :
          ImageSteeringResponse) = r := by
        rw [htake]
      rw [hr]
      rfl
  · intro p r0 r1 hp0 hlt0 hp1 hlt1
    rw [genImg_step0 p, hp0]
    dsimp only
    rw [genImg_v_of_le r0 (by omega)]
    rw [if_pos (by omega)]
    rw [genImg_at1 p, hp1]
    dsimp only
    rw [genImg_v_of_le r1 (by omega)]
    rw [if_pos (by omega)]

/-- C5 witness: a stub provider returning seven prompts (each carrying the
mandatory text) yields exactly the first five prompts in one call. -/
theorem image_planner_five_prompts_witness :
    generateImagePrompts (fun _ => ImgReply.ok respSeven) 0 =
      (Except.ok { respSeven with images := respSeven.images.take 5 }, 1) :=
  image_planner_five_prompts.2.2.1 (fun _ => ImgReply.ok respSeven) respSeven
    rfl (by decide) (by decide)

/-- C10: success of the planner requires every returned prompt to contain
(case-insensitively) the mandatory sketchnote text
"Sketchnote-style black-and-white instructional illustration"; a validated,
correctly-counted response in which some prompt lacks the text consumes the
single retry and, if the retry also lacks it, raises the terminal
`ImagePromptGenerationError` naming the offending indices. -/
theorem mandatory_sketchnote_text_enforced :
    (∀ (p : ℕ → ImgReply) (out : ImageSteeringResponse),
      (generateImagePrompts p 0).1 = Except.ok out →
      ∀ item ∈ out.images,
        containsLower item.imagePrompt mandatoryPromptText = true) ∧
    (∀ (p : ℕ → ImgReply) (r0 r1 : ImageSteeringResponse),
      p 0 = ImgReply.ok r0 → r0.images.length = 5 →
      missingTextIndices r0.images ≠ [] →
      p 1 = ImgReply.ok r1 → r1.images.length = 5 →
      missingTextIndices r1.images ≠ [] →
      generateImagePrompts p 0 =
        (Except.error (ImgError.missingMandatoryText
          (missingTextIndices r1.images)), 2)) := by
  constructor
  · intro p out h
    have hinv := genImg_ok_inv0 p out h
    exact (missingTextIndicesFrom_nil_iff out.images 0).mp hinv.2
  · intro p r0 r1 hp0 hlen0 hmiss0 hp1 hlen1 hmiss1
    rw [genImg_step0 p, hp0]
    dsimp only
    rw [genImg_v_of_le r0 (by omega)]
    rw [if_neg (by omega)]
    rw [if_neg (by simpa [List.isEmpty_iff] using hmiss0)]
    rw [genImg_at1 p, hp1]
    dsimp only
    rw [genImg_v_of_le r1 (by omega)]
    rw [if_neg (by omega)]
    rw [if_neg (by simpa [List.isEmpty_iff] using hmiss1)]

/-- C10 witness: a provider that always returns five validated prompts, the
first of which lacks the mandatory text, consumes the retry and raises the
terminal error naming the offending index. -/
theorem mandatory_sketchnote_text_witness :
    generateImagePrompts (fun _ => ImgReply.ok respFiveBad) 0 =
      (Except.error (ImgError.missingMandatoryText
        (missingTextIndices respFiveBad.images)), 2) :=
  mandatory_sketchnote_text_enforced.2 (fun _ => ImgReply.ok respFiveBad)
    respFiveBad respFiveBad rfl (by decide) (by decide) rfl (by decide) (by decide)

/-! ## C8 and C9: JSON recovery — character classes and parser endpoints -/

theorem mem_of_getLastSome {l : List Char} {c : Char} (h : l.getLast? = some c) :
    c ∈ l := by
  have hrev : l.reverse.head? = some c := by rw [List.head?_reverse]; exact h
  cases hl : l.reverse with
  | nil => rw [hl] at hrev; simp at hrev
  | cons d t =>
    rw [hl] at hrev
    have hdc : d = c := by simpa using hrev
    subst hdc
    have hmem : d ∈ l.reverse := by rw [hl]; simp
    exact List.mem_reverse.mp hmem

theorem jsonWs_pyWs {c : Char} (h : isJsonWs c = true) : isPyWs c = true := by
  unfold isPyWs
  rw [h]
  rfl

theorem not_pyWs_not_jsonWs {c : Char} (h : isPyWs c = false) :
    isJsonWs c = false := by
  cases hj : isJsonWs c with
  | false => rfl
  | true => rw [jsonWs_pyWs hj] at h; exact absurd h (by simp)

theorem isDig_not_pyWs {c : Char} (h : isDig c = true) : isPyWs c = false := by
  unfold isDig at h
  rw [Bool.and_eq_true, decide_eq_true_eq, decide_eq_true_eq] at h
  unfold isPyWs isJsonWs
  have hne : ∀ d : Char, d.toNat < 48 ∨ 57 < d.toNat → (c == d) = false := by
    intro d hd
    rw [beq_eq_false_iff_ne]
    intro he
    subst he
    omega
  rw [hne ' ' (by left; decide), hne '\t' (by left; decide),
    hne '\n' (by left; decide), hne '\r' (by left; decide),
    hne '\x0b' (by left; decide), hne '\x0c' (by left; decide),
    hne '\x1c' (by left; decide), hne '\x1d' (by left; decide),
    hne '\x1e' (by left; decide), hne '\x1f' (by left; decide),
    hne '\x85' (by right; decide), hne '\xa0' (by right; decide)]
  simp only [Bool.or_self, Bool.false_or, Bool.or_eq_false_iff]
  refine ⟨⟨⟨⟨⟨?_, ?_⟩, ?_⟩, ?_⟩, ?_⟩, ?_⟩ <;>
    simp only [beq_eq_false_iff_ne, ne_eq, Bool.and_eq_false_iff,
      decide_eq_false_iff_not, not_le] <;> omega

theorem isDig_not_special {c : Char} (h : isDig c = true) (d : Char)
    (hd : d.toNat < 48 ∨ 57 < d.toNat) : (c == d) = false := by
  unfold isDig at h
  rw [Bool.and_eq_true, decide_eq_true_eq, decide_eq_true_eq] at h
  rw [beq_eq_false_iff_ne]
  intro he
  subst he
  omega

theorem valueStart_not_pyWs {c : Char} (h : isValueStart c = true) :
    isPyWs c = false := by
  unfold isValueStart at h
  simp only [Bool.or_eq_true] at h
  rcases h with (((((((((h | h) | h) | h) | h) | h) | h) | h) | h) | h)
  all_goals first
  | (rw [beq_iff_eq] at h; subst h; decide)
  | exact isDig_not_pyWs h

theorem valueEnd_not_pyWs {c : Char} (h : isValueEnd c = true) :
    isPyWs c = false := by
  unfold isValueEnd at h
  simp only [Bool.or_eq_true] at h
  rcases h with ((((((h | h) | h) | h) | h) | h) | h) | h
  all_goals first
  | (rw [beq_iff_eq] at h; subst h; decide)
  | exact isDig_not_pyWs h

theorem valueStart_ne_tick {c : Char} (h : isValueStart c = true) :
    ('`' == c) = false := by
  unfold isValueStart at h
  simp only [Bool.or_eq_true] at h
  rcases h with (((((((((h | h) | h) | h) | h) | h) | h) | h) | h) | h)
  all_goals first
  | (rw [beq_iff_eq] at h; subst h; decide)
  | (rw [beq_eq_false_iff_ne]; intro he;
     rw [← he] at h; exact absurd h (by decide))

theorem parseStringBody_suffix :
    ∀ (n : ℕ) (l : List Char), l.length ≤ n →
      ∀ s r, parseStringBody l = Option.some (s, r) →
        ∃ a, l = a ++ r ∧ a.getLast? = some '"' := by
  intro n
  induction n with
  | zero =>
    intro l hl s r h
    have hnil : l = [] := by
      cases l with
      | nil => rfl
      | cons c t => simp at hl
    subst hnil
    simp [parseStringBody] at h
  | succ n ih =>
    intro l hl s r h
    rcases l with _ | ⟨c, t⟩
    · simp [parseStringBody] at h
    · rw [parseStringBody.eq_def] at h
      dsimp only at h
      by_cases hc : (c == '"') = true
      · rw [if_pos hc] at h
        injection h with h
        injection h with hs hr
        subst hr
        exact ⟨[c], rfl, by rw [beq_iff_eq] at hc; rw [hc]; rfl⟩
      · rw [if_neg hc] at h
        by_cases hbs : (c == '\\') = true
        · rw [if_pos hbs] at h
          rcases t with _ | ⟨e, t2⟩
          · simp at h
          · dsimp only at h
            by_cases hu : (e == 'u') = true
            · rw [if_pos hu] at h
              rcases t2 with _ | ⟨x1, _ | ⟨x2, _ | ⟨x3, _ | ⟨x4, t6⟩⟩⟩⟩ <;>
                dsimp only at h
              · simp at h
              · simp at h
              · simp at h
              · simp at h
              · cases hx1 : hexVal x1 with
                | none => rw [hx1] at h; simp at h
                | some a1 =>
                  cases hx2 : hexVal x2 with
                  | none => rw [hx1, hx2] at h; simp at h
                  | some a2 =>
                    cases hx3 : hexVal x3 with
                    | none => rw [hx1, hx2, hx3] at h; simp at h
                    | some a3 =>
                      cases hx4 : hexVal x4 with
                      | none => rw [hx1, hx2, hx3, hx4] at h; simp at h
                      | some a4 =>
                        rw [hx1, hx2, hx3, hx4] at h
                        dsimp only at h
                        by_cases hsur : 55296 ≤ ((a1 * 16 + a2) * 16 + a3) * 16 + a4 ∧
                            ((a1 * 16 + a2) * 16 + a3) * 16 + a4 ≤ 57343
                        · rw [if_pos hsur] at h; simp at h
                        · rw [if_neg hsur] at h
                          cases hrec : parseStringBody t6 with
                          | none => rw [hrec] at h; simp at h
                          | some pr =>
                            rw [hrec] at h
                            simp only [Option.map] at h
                            injection h with h
                            injection h with hs hr
                            obtain ⟨a', ha', hlast⟩ := ih t6
                              (by simp at hl; omega) pr.1 pr.2 (by rw [hrec])
                            refine ⟨c :: e :: x1 :: x2 :: x3 :: x4 :: a', ?_, ?_⟩
                            · rw [← hr, ha']
                              rfl
                            · exact getLast?_cons_of_some c (getLast?_cons_of_some e
                                (getLast?_cons_of_some x1 (getLast?_cons_of_some x2
                                (getLast?_cons_of_some x3
                                  (getLast?_cons_of_some x4 hlast)))))
            · rw [if_neg hu] at h
              cases hesc : escChar e with
              | none => rw [hesc] at h; simp at h
              | some d =>
                rw [hesc] at h
                dsimp only at h
                cases hrec : parseStringBody t2 with
                | none => rw [hrec] at h; simp at h
                | some pr =>
                  rw [hrec] at h
                  simp only [Option.map] at h
                  injection h with h
                  injection h with hs hr
                  obtain ⟨a', ha', hlast⟩ := ih t2
                    (by simp at hl; omega) pr.1 pr.2 (by rw [hrec])
                  refine ⟨c :: e :: a', ?_, ?_⟩
                  · rw [← hr, ha']
                    rfl
                  · exact getLast?_cons_of_some c (getLast?_cons_of_some e hlast)
        · rw [if_neg hbs] at h
          by_cases hctrl : c.toNat < 32
          · rw [if_pos hctrl] at h; simp at h
          · rw [if_neg hctrl] at h
            cases hrec : parseStringBody t with
            | none => rw [hrec] at h; simp at h
            | some pr =>
              rw [hrec] at h
              simp only [Option.map] at h
              injection h with h
              injection h with hs hr
              obtain ⟨a', ha', hlast⟩ := ih t
                (by simp at hl; omega) pr.1 pr.2 (by rw [hrec])
              refine ⟨c :: a', ?_, ?_⟩
              · rw [← hr, ha']
                rfl
              · exact getLast?_cons_of_some c hlast

theorem takeWhile_getLast_dig {t : List Char} {d : Char}
    (h : (t.takeWhile isDig).getLast? = some d) : isDig d = true :=
  List.mem_takeWhile_imp (mem_of_getLastSome h)

theorem parseIntDigits_suffix (l : List Char) (ds r : List Char)
    (h : parseIntDigits l = Option.some (ds, r)) :
    l = ds ++ r ∧ ∃ d, ds.getLast? = some d ∧ isDig d = true := by
  rcases l with _ | ⟨c, t⟩
  · simp [parseIntDigits] at h
  · rw [parseIntDigits.eq_def] at h
    dsimp only at h
    by_cases h0 : (c == '0') = true
    · rw [if_pos h0] at h
      injection h with h
      injection h with hds hr
      subst hr
      rw [← hds]
      rw [beq_iff_eq] at h0
      subst h0
      exact ⟨rfl, '0', rfl, by decide⟩
    · rw [if_neg h0] at h
      by_cases hd : isDig c = true
      · rw [if_pos hd] at h
        injection h with h
        injection h with hds hr
        subst hr
        rw [← hds]
        constructor
        · rw [List.cons_append, List.takeWhile_append_dropWhile]
        · cases htw : (t.takeWhile isDig).getLast? with
          | none =>
            have : t.takeWhile isDig = [] := List.getLast?_eq_none_iff.mp htw
            rw [this]
            exact ⟨c, rfl, hd⟩
          | some d =>
            exact ⟨d, getLast?_cons_of_some c htw, takeWhile_getLast_dig htw⟩
      · rw [if_neg hd] at h
        simp at h

theorem parseFracPart_spec (l : List Char) (f r : List Char)
    (h : parseFracPart l = (f, r)) :
    l = f ++ r ∧ (f = [] ∨ ∃ d, f.getLast? = some d ∧ isDig d = true) := by
  rw [parseFracPart.eq_def] at h
  split at h
  · rename_i t
    try dsimp only at h
    by_cases he : (t.takeWhile isDig).isEmpty = true
    · rw [if_pos he] at h
      injection h with hf hr
      subst hr
      rw [← hf]
      exact ⟨rfl, Or.inl rfl⟩
    · rw [if_neg he] at h
      injection h with hf hr
      subst hr
      rw [← hf]
      constructor
      · rw [List.cons_append, List.takeWhile_append_dropWhile]
      · right
        cases htw : (t.takeWhile isDig).getLast? with
        | none =>
          rw [List.getLast?_eq_none_iff.mp htw] at he
          simp at he
        | some d =>
          exact ⟨d, getLast?_cons_of_some '.' htw, takeWhile_getLast_dig htw⟩
  · injection h with hf hr
    subst hr
    rw [← hf]
    exact ⟨rfl, Or.inl rfl⟩

theorem parseExpPart_spec (l : List Char) (f r : List Char)
    (h : parseExpPart l = (f, r)) :
    l = f ++ r ∧ (f = [] ∨ ∃ d, f.getLast? = some d ∧ isDig d = true) := by
  rw [parseExpPart.eq_def] at h
  split at h
  · injection h with hf hr
    subst hr
    rw [← hf]
    exact ⟨rfl, Or.inl rfl⟩
  · rename_i e t
    try dsimp only at h
    by_cases hee : (e == 'e' || e == 'E') = true
    · rw [if_pos hee] at h
      split at h
      · injection h with hf hr
        subst hr
        rw [← hf]
        exact ⟨rfl, Or.inl rfl⟩
      · rename_i s t2
        try dsimp only at h
        by_cases hsg : (s == '+' || s == '-') = true
        · rw [if_pos hsg] at h
          by_cases hem : (t2.takeWhile isDig).isEmpty = true
          · rw [if_pos hem] at h
            injection h with hf hr
            subst hr
            rw [← hf]
            exact ⟨rfl, Or.inl rfl⟩
          · rw [if_neg hem] at h
            injection h with hf hr
            subst hr
            rw [← hf]
            constructor
            · rw [List.cons_append, List.cons_append,
                List.takeWhile_append_dropWhile]
            · right
              cases htw : (t2.takeWhile isDig).getLast? with
              | none =>
                rw [List.getLast?_eq_none_iff.mp htw] at hem
                simp at hem
              | some d =>
                exact ⟨d, getLast?_cons_of_some e (getLast?_cons_of_some s htw),
                  takeWhile_getLast_dig htw⟩
        · rw [if_neg hsg] at h
          by_cases hem : ((s :: t2).takeWhile isDig).isEmpty = true
          · rw [if_pos hem] at h
            injection h with hf hr
            subst hr
            rw [← hf]
            exact ⟨rfl, Or.inl rfl⟩
          · rw [if_neg hem] at h
            injection h with hf hr
            subst hr
            rw [← hf]
            constructor
            · rw [List.cons_append, List.takeWhile_append_dropWhile]
            · right
              cases htw : ((s :: t2).takeWhile isDig).getLast? with
              | none =>
                rw [List.getLast?_eq_none_iff.mp htw] at hem
                simp at hem
              | some d =>
                exact ⟨d, getLast?_cons_of_some e htw, takeWhile_getLast_dig htw⟩
    · rw [if_neg hee] at h
      injection h with hf hr
      subst hr
      rw [← hf]
      exact ⟨rfl, Or.inl rfl⟩

theorem concat_digit_last {ip f e : List Char}
    (hip : ∃ d, ip.getLast? = some d ∧ isDig d = true)
    (hf : f = [] ∨ ∃ d, f.getLast? = some d ∧ isDig d = true)
    (he : e = [] ∨ ∃ d, e.getLast? = some d ∧ isDig d = true) :
    ∃ d, (ip ++ f ++ e).getLast? = some d ∧ isDig d = true := by
  rcases he with he | ⟨d, hd, hdig⟩
  · subst he
    rw [List.append_nil]
    rcases hf with hf | ⟨d, hd, hdig⟩
    · subst hf
      rw [List.append_nil]
      exact hip
    · exact ⟨d, by rw [getLast?_append_right (ne_nil_of_getLast? hd)]; exact hd, hdig⟩
  · exact ⟨d, by rw [getLast?_append_right (ne_nil_of_getLast? hd)]; exact hd, hdig⟩

theorem parseNumber_suffix (l : List Char) (lex r : List Char)
    (h : parseNumber l = Option.some (lex, r)) :
    l = lex ++ r ∧ ∃ d, lex.getLast? = some d ∧ isDig d = true := by
  rw [parseNumber.eq_def] at h
  split at h
  · rename_i t
    cases hip : parseIntDigits t with
    | none => rw [hip] at h; simp at h
    | some pr =>
      obtain ⟨ip, r1⟩ := pr
      rw [hip] at h
      try dsimp only at h
      cases hfr : parseFracPart r1 with
      | mk f2 r2 =>
        rw [hfr] at h
        try dsimp only at h
        cases hex : parseExpPart r2 with
        | mk e3 r3 =>
          rw [hex] at h
          try dsimp only at h
          injection h with h
          injection h with hlex hr
          subst hr
          rw [← hlex]
          obtain ⟨hteq, hipd⟩ := parseIntDigits_suffix t ip r1 hip
          obtain ⟨hfeq, hfd⟩ := parseFracPart_spec r1 f2 r2 hfr
          obtain ⟨heeq, hed⟩ := parseExpPart_spec r2 e3 r3 hex
          constructor
          · rw [List.cons_append, List.append_assoc, List.append_assoc,
              ← heeq, ← hfeq, ← hteq]
          · obtain ⟨d, hd, hdig⟩ := concat_digit_last hipd hfd hed
            exact ⟨d, getLast?_cons_of_some '-' hd, hdig⟩
  · cases hip : parseIntDigits l with
    | none => rw [hip] at h; simp at h
    | some pr =>
      obtain ⟨ip, r1⟩ := pr
      rw [hip] at h
      try dsimp only at h
      cases hfr : parseFracPart r1 with
      | mk f2 r2 =>
        rw [hfr] at h
        try dsimp only at h
        cases hex : parseExpPart r2 with
        | mk e3 r3 =>
          rw [hex] at h
          try dsimp only at h
          injection h with h
          injection h with hlex hr
          subst hr
          rw [← hlex]
          obtain ⟨hteq, hipd⟩ := parseIntDigits_suffix l ip r1 hip
          obtain ⟨hfeq, hfd⟩ := parseFracPart_spec r1 f2 r2 hfr
          obtain ⟨heeq, hed⟩ := parseExpPart_spec r2 e3 r3 hex
          constructor
          · rw [List.append_assoc, List.append_assoc, ← heeq, ← hfeq, ← hteq]
          · obtain ⟨d, hd, hdig⟩ := concat_digit_last hipd hfd hed
            exact ⟨d, hd, hdig⟩

theorem stripLit_suffix : ∀ p l r, stripLit p l = Option.some r → l = p ++ r := by
  intro p
  induction p with
  | nil =>
    intro l r h
    rw [stripLit] at h
    rw [List.nil_append]
    exact Option.some.inj h
  | cons c p ih =>
    intro l r h
    cases l with
    | nil => rw [stripLit] at h; exact absurd h (by simp)
    | cons d t =>
      rw [stripLit] at h
      by_cases hd : (d == c) = true
      · rw [if_pos hd] at h
        rw [beq_iff_eq] at hd
        subst hd
        rw [ih t r h, List.cons_append]
      · rw [if_neg hd] at h
        exact absurd h (by simp)

theorem parseValue_zero (l : List Char) : parseValue 0 l = Option.none := rfl

theorem parseValue_nil (fuel : ℕ) : parseValue fuel [] = Option.none := by
  cases fuel with
  | zero => rfl
  | succ n => rfl

theorem parseValue_succ (n : ℕ) :
    parseValue (n + 1) = valueF (parseObjectRest n) (parseArrayRest n) := rfl

theorem parseMembers_eq (fuel : ℕ) :
    parseMembers fuel = membersF (parseValue fuel) (parseMembersPrev fuel) := by
  cases fuel with
  | zero => rfl
  | succ n => rfl

theorem parseObjectRest_eq (fuel : ℕ) :
    parseObjectRest fuel = objectRestF (parseMembers fuel) := by
  cases fuel with
  | zero => rfl
  | succ n => rfl

theorem parseElems_eq (fuel : ℕ) :
    parseElems fuel = elemsF (parseValue fuel) (parseElemsPrev fuel) := by
  cases fuel with
  | zero => rfl
  | succ n => rfl

theorem parseArrayRest_eq (fuel : ℕ) :
    parseArrayRest fuel = arrayRestF (parseElems fuel) := by
  cases fuel with
  | zero => rfl
  | succ n => rfl

theorem isDig_valueEnd {d : Char} (h : isDig d = true) : isValueEnd d = true := by
  unfold isValueEnd
  rw [h]
  simp

/-- The statement shapes of the parser-endpoint lemmas. -/
def PVStmt (fuel : ℕ) : Prop :=
  ∀ l v r, parseValue fuel l = Option.some (v, r) →
    ∃ a cend, l = a ++ r ∧ a.getLast? = some cend ∧ isValueEnd cend = true

def PMStmt (fuel : ℕ) : Prop :=
  ∀ l ms r, parseMembers fuel l = Option.some (ms, r) →
    ∃ a, l = a ++ r ∧ a.getLast? = some '\x7d'

def POStmt (fuel : ℕ) : Prop :=
  ∀ l v r, parseObjectRest fuel l = Option.some (v, r) →
    ∃ a, l = a ++ r ∧ a.getLast? = some '\x7d'

def PEStmt (fuel : ℕ) : Prop :=
  ∀ l es r, parseElems fuel l = Option.some (es, r) →
    ∃ a, l = a ++ r ∧ a.getLast? = some ']'

def PAStmt (fuel : ℕ) : Prop :=
  ∀ l v r, parseArrayRest fuel l = Option.some (v, r) →
    ∃ a, l = a ++ r ∧ a.getLast? = some ']'

theorem skipJsonWs_decomp (u : List Char) :
    u = u.takeWhile isJsonWs ++ skipJsonWs u :=
  (List.takeWhile_append_dropWhile _ _).symm

set_option maxHeartbeats 2000000 in
theorem parseValue_end_step (n : ℕ) (HO : POStmt n) (HA : PAStmt n) :
    PVStmt (n + 1) := by
  intro l v r h
  rcases l with _ | ⟨c, t⟩
  · rw [parseValue_nil] at h
    exact absurd h (by simp)
  · rw [parseValue_succ] at h
    rw [valueF.eq_def] at h
    dsimp only at h
    by_cases h1 : (c == '"') = true
    · rw [if_pos h1] at h
      cases hsb : parseStringBody t with
      | none => rw [hsb] at h; simp at h
      | some pr =>
        rw [hsb] at h
        simp only [Option.map] at h
        injection h with h
        injection h with hv hr
        subst hr
        obtain ⟨a', ha', hlast⟩ :=
          parseStringBody_suffix t.length t le_rfl pr.1 pr.2 hsb
        exact ⟨c :: a', '"', by rw [ha']; rfl,
          getLast?_cons_of_some c hlast, by decide⟩
    · rw [if_neg h1] at h
      by_cases h2 : (c == '\x7b') = true
      · rw [if_pos h2] at h
        obtain ⟨a', ha', hlast⟩ := HO _ v r h
        refine ⟨c :: (t.takeWhile isJsonWs ++ a'), '\x7d', ?_, ?_, by decide⟩
        · rw [List.cons_append, List.append_assoc, ← ha']
          rw [← skipJsonWs_decomp]
        · exact getLast?_cons_of_some c (by
            rw [getLast?_append_right (ne_nil_of_getLast? hlast)]; exact hlast)
      · rw [if_neg h2] at h
        by_cases h3 : (c == '[') = true
        · rw [if_pos h3] at h
          obtain ⟨a', ha', hlast⟩ := HA _ v r h
          refine ⟨c :: (t.takeWhile isJsonWs ++ a'), ']', ?_, ?_, by decide⟩
          · rw [List.cons_append, List.append_assoc, ← ha']
            rw [← skipJsonWs_decomp]
          · exact getLast?_cons_of_some c (by
              rw [getLast?_append_right (ne_nil_of_getLast? hlast)]; exact hlast)
        · rw [if_neg h3] at h
          by_cases h4 : (c == 't') = true
          · rw [if_pos h4] at h
            cases hsl : stripLit ['r', 'u', 'e'] t with
            | none => rw [hsl] at h; simp at h
            | some r' =>
              rw [hsl] at h
              simp only [Option.map] at h
              injection h with h
              injection h with hv hr
              subst hr
              rw [beq_iff_eq] at h4
              subst h4
              have ht := stripLit_suffix _ _ _ hsl
              subst ht
              exact ⟨['t', 'r', 'u', 'e'], 'e', rfl, rfl, by decide⟩
          · rw [if_neg h4] at h
            by_cases h5 : (c == 'f') = true
            · rw [if_pos h5] at h
              cases hsl : stripLit ['a', 'l', 's', 'e'] t with
              | none => rw [hsl] at h; simp at h
              | some r' =>
                rw [hsl] at h
                simp only [Option.map] at h
                injection h with h
                injection h with hv hr
                subst hr
                rw [beq_iff_eq] at h5
                subst h5
                have ht := stripLit_suffix _ _ _ hsl
                subst ht
                exact ⟨['f', 'a', 'l', 's', 'e'], 'e', rfl, rfl, by decide⟩
            · rw [if_neg h5] at h
              by_cases h6 : (c == 'n') = true
              · rw [if_pos h6] at h
                cases hsl : stripLit ['u', 'l', 'l'] t with
                | none => rw [hsl] at h; simp at h
                | some r' =>
                  rw [hsl] at h
                  simp only [Option.map] at h
                  injection h with h
                  injection h with hv hr
                  subst hr
                  rw [beq_iff_eq] at h6
                  subst h6
                  have ht := stripLit_suffix _ _ _ hsl
                  subst ht
                  exact ⟨['n', 'u', 'l', 'l'], 'l', rfl, rfl, by decide⟩
              · rw [if_neg h6] at h
                by_cases h7 : (c == 'N') = true
                · rw [if_pos h7] at h
                  cases hsl : stripLit ['a', 'N'] t with
                  | none => rw [hsl] at h; simp at h
                  | some r' =>
                    rw [hsl] at h
                    simp only [Option.map] at h
                    injection h with h
                    injection h with hv hr
                    subst hr
                    rw [beq_iff_eq] at h7
                    subst h7
                    have ht := stripLit_suffix _ _ _ hsl
                    subst ht
                    exact ⟨['N', 'a', 'N'], 'N', rfl, rfl, by decide⟩
                · rw [if_neg h7] at h
                  by_cases h8 : (c == 'I') = true
                  · rw [if_pos h8] at h
                    cases hsl : stripLit ['n', 'f', 'i', 'n', 'i', 't', 'y'] t with
                    | none => rw [hsl] at h; simp at h
                    | some r' =>
                      rw [hsl] at h
                      simp only [Option.map] at h
                      injection h with h
                      injection h with hv hr
                      subst hr
                      rw [beq_iff_eq] at h8
                      subst h8
                      have ht := stripLit_suffix _ _ _ hsl
                      subst ht
                      exact ⟨['I', 'n', 'f', 'i', 'n', 'i', 't', 'y'], 'y',
                        rfl, rfl, by decide⟩
                  · rw [if_neg h8] at h
                    by_cases h9 : (c == '-') = true
                    · rw [if_pos h9] at h
                      cases hsl : stripLit ['I', 'n', 'f', 'i', 'n', 'i', 't', 'y'] t with
                      | some r' =>
                        rw [hsl] at h
                        dsimp only at h
                        injection h with h
                        injection h with hv hr
                        subst hr
                        rw [beq_iff_eq] at h9
                        subst h9
                        have ht := stripLit_suffix _ _ _ hsl
                        subst ht
                        exact ⟨'-' :: ['I', 'n', 'f', 'i', 'n', 'i', 't', 'y'], 'y',
                          rfl, rfl, by decide⟩
                      | none =>
                        rw [hsl] at h
                        dsimp only at h
                        cases hnum : parseNumber (c :: t) with
                        | none => rw [hnum] at h; simp at h
                        | some pr =>
                          rw [hnum] at h
                          simp only [Option.map] at h
                          injection h with h
                          injection h with hv hr
                          subst hr
                          obtain ⟨heq, d, hd, hdig⟩ :=
                            parseNumber_suffix (c :: t) pr.1 pr.2 hnum
                          exact ⟨pr.1, d, heq, hd, isDig_valueEnd hdig⟩
                    · rw [if_neg h9] at h
                      by_cases h10 : isDig c = true
                      · rw [if_pos h10] at h
                        cases hnum : parseNumber (c :: t) with
                        | none => rw [hnum] at h; simp at h
                        | some pr =>
                          rw [hnum] at h
                          simp only [Option.map] at h
                          injection h with h
                          injection h with hv hr
                          subst hr
                          obtain ⟨heq, d, hd, hdig⟩ :=
                            parseNumber_suffix (c :: t) pr.1 pr.2 hnum
                          exact ⟨pr.1, d, heq, hd, isDig_valueEnd hdig⟩
                      · rw [if_neg h10] at h
                        simp at h

set_option maxHeartbeats 2000000 in
theorem parseMembers_end_step (fuel : ℕ) (HV : PVStmt fuel)
    (HM : ∀ fuel', fuel = fuel' + 1 → PMStmt fuel') : PMStmt fuel := by
  intro l ms r h
  rcases l with _ | ⟨c, t⟩
  · rw [parseMembers_eq] at h
    rw [membersF.eq_def] at h
    dsimp only at h
    exact absurd h (by simp)
  · rw [parseMembers_eq] at h
    rw [membersF.eq_def] at h
    dsimp only at h
    by_cases hc : (c == '"') = true
    case neg => rw [if_neg hc] at h; exact absurd h (by simp)
    rw [if_pos hc] at h
    rw [beq_iff_eq] at hc
    subst hc
    cases hsb : parseStringBody t with
    | none => rw [hsb] at h; dsimp only at h; exact absurd h (by simp)
    | some pr =>
      obtain ⟨key, r1⟩ := pr
      rw [hsb] at h
      dsimp only at h
      obtain ⟨as_, hts, hsq⟩ := parseStringBody_suffix t.length t le_rfl key r1 hsb
      have e2 : r1 = r1.takeWhile isJsonWs ++ skipJsonWs r1 := skipJsonWs_decomp r1
      cases hw1 : skipJsonWs r1 with
      | nil => rw [hw1] at h; dsimp only at h; exact absurd h (by simp)
      | cons d1 r2 =>
        rw [hw1] at h
        dsimp only at h
        by_cases hd1 : (d1 == ':') = true
        case neg => rw [if_neg hd1] at h; exact absurd h (by simp)
        rw [if_pos hd1] at h
        rw [beq_iff_eq] at hd1
        subst hd1
        rw [hw1] at e2
        cases hpv : parseValue fuel (skipJsonWs r2) with
        | none => rw [hpv] at h; dsimp only at h; exact absurd h (by simp)
        | some pv =>
          obtain ⟨v0, r3⟩ := pv
          rw [hpv] at h
          dsimp only at h
          obtain ⟨av, cend, hav, havl, havend⟩ := HV _ v0 r3 hpv
          have e3 : r2 = r2.takeWhile isJsonWs ++ skipJsonWs r2 := skipJsonWs_decomp r2
          rw [hav] at e3
          have e4 : r3 = r3.takeWhile isJsonWs ++ skipJsonWs r3 := skipJsonWs_decomp r3
          cases hw3 : skipJsonWs r3 with
          | nil => rw [hw3] at h; dsimp only at h; exact absurd h (by simp)
          | cons d2 r4 =>
            rw [hw3] at h
            dsimp only at h
            rw [hw3] at e4
            by_cases hd2 : (d2 == ',') = true
            · rw [if_pos hd2] at h
              rw [beq_iff_eq] at hd2
              subst hd2
              cases fuel with
              | zero => simp [parseMembersPrev] at h
              | succ n' =>
                simp only [parseMembersPrev] at h
                cases hrec : parseMembers n' (skipJsonWs r4) with
                | none => rw [hrec] at h; simp at h
                | some mr =>
                  obtain ⟨ms', r5⟩ := mr
                  rw [hrec] at h
                  simp only [Option.map] at h
                  injection h with h
                  injection h with hms hr
                  subst hr
                  obtain ⟨am, ham, hamlast⟩ := HM n' rfl _ ms' r5 hrec
                  have e5 : r4 = r4.takeWhile isJsonWs ++ skipJsonWs r4 := skipJsonWs_decomp r4
                  rw [ham] at e5
                  have hfull : ('"' :: t : List Char) =
                      (('"' :: (as_ ++ (r1.takeWhile isJsonWs ++ (':' :: (r2.takeWhile isJsonWs ++
                        (av ++ (r3.takeWhile isJsonWs ++ (',' :: r4.takeWhile isJsonWs)))))))) ++ am)
                        ++ r5 := by
                    conv_lhs => rw [hts, e2, e3, e4, e5]
                    simp [List.append_assoc]
                  exact ⟨_, hfull, by
                    rw [getLast?_append_right (ne_nil_of_getLast? hamlast)]; exact hamlast⟩
            · rw [if_neg hd2] at h
              by_cases hd3 : (d2 == '\x7d') = true
              · rw [if_pos hd3] at h
                rw [beq_iff_eq] at hd3
                subst hd3
                injection h with h
                injection h with hms hr
                subst hr
                have hfull : ('"' :: t : List Char) =
                    (('"' :: (as_ ++ (r1.takeWhile isJsonWs ++ (':' :: (r2.takeWhile isJsonWs ++
                      (av ++ r3.takeWhile isJsonWs)))))) ++ ['\x7d']) ++ r4 := by
                  conv_lhs => rw [hts, e2, e3, e4]
                  simp [List.append_assoc]
                exact ⟨_, hfull, by
                  rw [getLast?_append_right (by simp : (['\x7d'] : List Char) ≠ [])]; rfl⟩
              · rw [if_neg hd3] at h
                exact absurd h (by simp)
theorem parseObjectRest_end_step (fuel : ℕ) (HM : PMStmt fuel) : POStmt fuel := by
  intro l v r h
  rw [parseObjectRest_eq] at h
  rcases l with _ | ⟨d, t⟩
  · rw [objectRestF.eq_def] at h
    dsimp only at h
    cases hm : parseMembers fuel [] with
    | none => rw [hm] at h; simp at h
    | some mr =>
      obtain ⟨ms', r5⟩ := mr
      rw [hm] at h
      simp only [Option.map] at h
      injection h with h
      injection h with hv hr
      subst hr
      obtain ⟨am, ham, hamlast⟩ := HM _ ms' r5 hm
      exact absurd hamlast (by
        have hnil : am = [] := (List.append_eq_nil.mp ham.symm).1
        rw [hnil]
        simp)
  · rw [objectRestF.eq_def] at h
    dsimp only at h
    by_cases hd : (d == '\x7d') = true
    · rw [if_pos hd] at h
      rw [beq_iff_eq] at hd
      subst hd
      injection h with h
      injection h with hv hr
      subst hr
      exact ⟨['\x7d'], rfl, rfl⟩
    · rw [if_neg hd] at h
      cases hm : parseMembers fuel (d :: t) with
      | none => rw [hm] at h; simp at h
      | some mr =>
        obtain ⟨ms', r5⟩ := mr
        rw [hm] at h
        simp only [Option.map] at h
        injection h with h
        injection h with hv hr
        subst hr
        exact HM _ ms' r5 hm

theorem parseElems_end_step (fuel : ℕ) (HV : PVStmt fuel)
    (HE : ∀ fuel', fuel = fuel' + 1 → PEStmt fuel') : PEStmt fuel := by
  intro l es r h
  rw [parseElems_eq] at h
  simp only [elemsF] at h
  cases hpv : parseValue fuel l with
  | none => rw [hpv] at h; dsimp only at h; exact absurd h (by simp)
  | some pv =>
    obtain ⟨v0, r1⟩ := pv
    rw [hpv] at h
    dsimp only at h
    obtain ⟨av, cend, hav, havl, havend⟩ := HV _ v0 r1 hpv
    have e1 : r1 = r1.takeWhile isJsonWs ++ skipJsonWs r1 := skipJsonWs_decomp r1
    cases hw1 : skipJsonWs r1 with
    | nil => rw [hw1] at h; dsimp only at h; exact absurd h (by simp)
    | cons d r2 =>
      rw [hw1] at h
      dsimp only at h
      rw [hw1] at e1
      by_cases hd : (d == ',') = true
      · rw [if_pos hd] at h
        rw [beq_iff_eq] at hd
        subst hd
        cases fuel with
        | zero => simp [parseElemsPrev] at h
        | succ n' =>
          simp only [parseElemsPrev] at h
          cases hrec : parseElems n' (skipJsonWs r2) with
          | none => rw [hrec] at h; simp at h
          | some er =>
            obtain ⟨es', r3⟩ := er
            rw [hrec] at h
            simp only [Option.map] at h
            injection h with h
            injection h with hes hr
            subst hr
            obtain ⟨ae, hae, haelast⟩ := HE n' rfl _ es' r3 hrec
            have e2 : r2 = r2.takeWhile isJsonWs ++ skipJsonWs r2 := skipJsonWs_decomp r2
            rw [hae] at e2
            have hfull : l =
                ((av ++ (r1.takeWhile isJsonWs ++ (',' :: r2.takeWhile isJsonWs))) ++ ae)
                  ++ r3 := by
              conv_lhs => rw [hav, e1, e2]
              simp [List.append_assoc]
            exact ⟨_, hfull, by
              rw [getLast?_append_right (ne_nil_of_getLast? haelast)]; exact haelast⟩
      · rw [if_neg hd] at h
        by_cases hd2 : (d == ']') = true
        · rw [if_pos hd2] at h
          rw [beq_iff_eq] at hd2
          subst hd2
          injection h with h
          injection h with hes hr
          subst hr
          have hfull : l = ((av ++ r1.takeWhile isJsonWs) ++ [']']) ++ r2 := by
            conv_lhs => rw [hav, e1]
            simp [List.append_assoc]
          exact ⟨_, hfull, by
            rw [getLast?_append_right (by simp : (([']'] : List Char)) ≠ [])]; rfl⟩
        · rw [if_neg hd2] at h
          exact absurd h (by simp)

theorem parseArrayRest_end_step (fuel : ℕ) (HE : PEStmt fuel) : PAStmt fuel := by
  intro l v r h
  rw [parseArrayRest_eq] at h
  rcases l with _ | ⟨d, t⟩
  · rw [arrayRestF.eq_def] at h
    dsimp only at h
    cases hm : parseElems fuel [] with
    | none => rw [hm] at h; simp at h
    | some er =>
      obtain ⟨es', r5⟩ := er
      rw [hm] at h
      simp only [Option.map] at h
      injection h with h
      injection h with hv hr
      subst hr
      obtain ⟨ae, hae, haelast⟩ := HE _ es' r5 hm
      exact absurd haelast (by
        have hnil : ae = [] := (List.append_eq_nil.mp hae.symm).1
        rw [hnil]
        simp)
  · rw [arrayRestF.eq_def] at h
    dsimp only at h
    by_cases hd : (d == ']') = true
    · rw [if_pos hd] at h
      rw [beq_iff_eq] at hd
      subst hd
      injection h with h
      injection h with hv hr
      subst hr
      exact ⟨[']'], rfl, rfl⟩
    · rw [if_neg hd] at h
      cases hm : parseElems fuel (d :: t) with
      | none => rw [hm] at h; simp at h
      | some er =>
        obtain ⟨es', r5⟩ := er
        rw [hm] at h
        simp only [Option.map] at h
        injection h with h
        injection h with hv hr
        subst hr
        exact HE _ es' r5 hm

theorem parsersEnd : ∀ fuel : ℕ,
    PVStmt fuel ∧ PMStmt fuel ∧ POStmt fuel ∧ PEStmt fuel ∧ PAStmt fuel := by
  intro fuel
  induction fuel with
  | zero =>
    have hv : PVStmt 0 := by
      intro l v r h
      rw [parseValue_zero] at h
      exact absurd h (by simp)
    have hm : PMStmt 0 :=
      parseMembers_end_step 0 hv (fun fuel' heq => absurd heq (by simp))
    have he : PEStmt 0 :=
      parseElems_end_step 0 hv (fun fuel' heq => absurd heq (by simp))
    exact ⟨hv, hm, parseObjectRest_end_step 0 hm, he, parseArrayRest_end_step 0 he⟩
  | succ n ih =>
    obtain ⟨ihv, ihm, iho, ihe, iha⟩ := ih
    have hv : PVStmt (n + 1) := parseValue_end_step n iho iha
    have hm : PMStmt (n + 1) :=
      parseMembers_end_step (n + 1) hv (fun fuel' heq =>
        (Nat.succ_injective heq) ▸ ihm)
    have he : PEStmt (n + 1) :=
      parseElems_end_step (n + 1) hv (fun fuel' heq =>
        (Nat.succ_injective heq) ▸ ihe)
    exact ⟨hv, hm, parseObjectRest_end_step (n + 1) hm, he,
      parseArrayRest_end_step (n + 1) he⟩

theorem parseValue_ends (fuel : ℕ) : PVStmt fuel :=
  (parsersEnd fuel).1

theorem parseValue_head (fuel : ℕ) (c : Char) (t : List Char) (x : Json × List Char)
    (h : parseValue fuel (c :: t) = Option.some x) : isValueStart c = true := by
  cases fuel with
  | zero => rw [parseValue_zero] at h; exact absurd h (by simp)
  | succ n =>
    rw [parseValue_succ] at h
    rw [valueF.eq_def] at h
    dsimp only at h
    by_cases hs : isValueStart c = true
    · exact hs
    · exfalso
      simp only [isValueStart, Bool.or_eq_true, not_or] at hs
      obtain ⟨⟨⟨⟨⟨⟨⟨⟨⟨h1, h2⟩, h3⟩, h4⟩, h5⟩, h6⟩, h7⟩, h8⟩, h9⟩, h10⟩ := hs
      rw [if_neg h1, if_neg h2, if_neg h3, if_neg h4, if_neg h5, if_neg h6,
        if_neg h7, if_neg h8, if_neg h9, if_neg h10] at h
      exact absurd h (by simp)

/-- Successful `jsonLoadsL` exposes its stripped core: nonempty, starting at a
value-start character, ending at a value-end character, and consumed whole by
the scanner. -/
theorem jsonLoadsL_core {l : List Char} {v : Json}
    (h : jsonLoadsL l = Option.some v) :
    ∃ c m d, stripBoth isJsonWs l = c :: m ∧ isValueStart c = true ∧
      (c :: m).getLast? = some d ∧ isValueEnd d = true ∧
      parseValue ((c :: m).length + 1) (c :: m) = Option.some (v, []) := by
  simp only [jsonLoadsL] at h
  cases hpv : parseValue ((stripBoth isJsonWs l).length + 1) (stripBoth isJsonWs l) with
  | none => rw [hpv] at h; dsimp only at h; exact absurd h (by simp)
  | some pr =>
    obtain ⟨v0, rr⟩ := pr
    rw [hpv] at h
    cases rr with
    | nil =>
      dsimp only at h
      injection h with h
      subst h
      cases hu : stripBoth isJsonWs l with
      | nil => rw [hu, parseValue_nil] at hpv; exact absurd hpv (by simp)
      | cons c m =>
        rw [hu] at hpv
        obtain ⟨a, cend, ha, halast, haend⟩ :=
          parseValue_ends ((c :: m).length + 1) _ _ _ hpv
        rw [List.append_nil] at ha
        subst ha
        exact ⟨c, m, cend, rfl, parseValue_head _ c m _ hpv, halast, haend, hpv⟩
    | cons y ys => dsimp only at h; exact absurd h (by simp)

theorem startsWithTicks_false {c : Char} (m : List Char)
    (hc : ('`' == c) = false) : startsWithTicks (c :: m) = false := by
  simp only [startsWithTicks]
  show List.isPrefixOf ('`' :: '`' :: '`' :: []) (c :: m) = false
  rw [List.isPrefixOf]
  simp [hc]

/-- A list whose ends are not Python whitespace and whose surrounding JSON
whitespace has been stripped strips identically under the wider Python
whitespace class. -/
theorem stripBoth_pyWs_eq_jsonWs {l : List Char} {c d : Char} {m : List Char}
    (hu : stripBoth isJsonWs l = c :: m)
    (hlast : (c :: m).getLast? = some d)
    (hc : isPyWs c = false) (hd : isPyWs d = false) :
    stripBoth isPyWs l = c :: m := by
  obtain ⟨a, b, hdecomp, ha, hb⟩ := stripBoth_decomposition isJsonWs l
  rw [hu] at hdecomp
  have ha' : ∀ x ∈ a, isPyWs x = true := fun x hx => jsonWs_pyWs (ha x hx)
  have hb' : ∀ x ∈ b, isPyWs x = true := fun x hx => jsonWs_pyWs (hb x hx)
  rw [hdecomp]
  unfold stripBoth
  rw [List.append_assoc, dropWhile_append_of_all ((c :: m) ++ b) ha',
    List.cons_append, dropWhile_of_head_neg hc, ← List.cons_append,
    stripTrail_append_all _ hb']
  exact stripTrail_of_getLast_neg hlast hd

/-- Core of C8 over character lists: a directly parsable document is returned
unchanged by the recovery routine's first attempt. -/
theorem extractJsonL_of_jsonLoadsL {l : List Char} {v : Json}
    (h : jsonLoadsL l = Option.some v) : extractJsonL l = Option.some v := by
  obtain ⟨c, m, d, hu, hc, hlast, hd, hpv⟩ := jsonLoadsL_core h
  have hcpy : isPyWs c = false := valueStart_not_pyWs hc
  have hdpy : isPyWs d = false := valueEnd_not_pyWs hd
  have hstrip : stripBoth isPyWs l = c :: m := stripBoth_pyWs_eq_jsonWs hu hlast hcpy hdpy
  have hjl : jsonLoadsL (c :: m) = Option.some v := by
    have hsb : stripBoth isJsonWs (c :: m) = c :: m :=
      stripBoth_of_ends_neg hlast (not_pyWs_not_jsonWs hcpy) (not_pyWs_not_jsonWs hdpy)
    simp only [jsonLoadsL, hsb, hpv]
  simp only [extractJsonL, hstrip,
    startsWithTicks_false m (valueStart_ne_tick hc)]
  simp only [Bool.false_eq_true, if_false, hjl]

/-- C8: the JSON recovery function is idempotent on already-valid JSON.  For
every string that `json.loads` parses directly, `extract_json` applied to the
string returns the same value as the direct parse: the strip never removes a
document character, the fence branch is never entered (valid JSON cannot start
with a backtick), and the first parse attempt already succeeds, so the
slice-recovery step is never reached. -/
theorem json_recovery_idempotent (s : String) (v : Json)
    (h : json_loads s = Option.some v) : extract_json s = Option.some v :=
  extractJsonL_of_jsonLoadsL h

theorem json_recovery_idempotent_witness :
    json_loads " \x7b\"a\": [1, true]\x7d " =
      Option.some (Json.obj [("a", Json.arr [Json.num "1", Json.bool true])]) ∧
    extract_json " \x7b\"a\": [1, true]\x7d " =
      Option.some (Json.obj [("a", Json.arr [Json.num "1", Json.bool true])]) :=
  ⟨rfl, json_recovery_idempotent _ _ rfl⟩

theorem splitlinesGo_cons_nl (cur rest : List Char) :
    splitlinesGo cur ('\n' :: rest) = cur.reverse :: splitlinesGo [] rest := by
  rw [splitlinesGo.eq_def]
  dsimp only
  rw [if_neg (by decide), if_pos (by decide)]

theorem splitlinesGo_cons_nonbreak {c : Char} (h : isLineBreak c = false)
    (cur t : List Char) :
    splitlinesGo cur (c :: t) = splitlinesGo (c :: cur) t := by
  have hr : (c == '\r') = false := by
    cases he : (c == '\r') with
    | false => rfl
    | true =>
      rw [beq_iff_eq] at he
      subst he
      exact absurd h (by decide)
  rw [splitlinesGo.eq_def]
  dsimp only
  rw [if_neg (by simp [hr]), if_neg (by simp [h])]

theorem splitlinesGo_append_nl :
    ∀ (a : List Char), (∀ c ∈ a, isLineBreak c = false) →
      ∀ cur rest, splitlinesGo cur (a ++ '\n' :: rest) =
        (cur.reverse ++ a) :: splitlinesGo [] rest := by
  intro a
  induction a with
  | nil =>
    intro _ cur rest
    rw [List.nil_append, splitlinesGo_cons_nl, List.append_nil]
  | cons x xs ih =>
    intro h cur rest
    have hx : isLineBreak x = false := h x (by simp)
    rw [List.cons_append, splitlinesGo_cons_nonbreak hx,
      ih (fun c hc => h c (by simp [hc])) (x :: cur) rest]
    simp [List.reverse_cons, List.append_assoc]

theorem splitlinesGo_ne_nil :
    ∀ (t cur : List Char), cur.isEmpty = false ∨ t ≠ [] →
      splitlinesGo cur t ≠ [] := by
  intro t
  induction t with
  | nil =>
    intro cur h
    rcases h with h | h
    · rw [splitlinesGo.eq_def]
      dsimp only
      rw [if_neg (by simp [h])]
      simp
    · exact absurd rfl h
  | cons c t ih =>
    intro cur _
    rw [splitlinesGo.eq_def]
    dsimp only
    by_cases hr : (c == '\r') = true
    · rw [if_pos hr]
      cases t with
      | nil => dsimp only; simp
      | cons d t2 =>
        dsimp only
        by_cases hd : (d == '\n') = true
        · rw [if_pos hd]; simp
        · rw [if_neg hd]; simp
    · rw [if_neg hr]
      by_cases hb : isLineBreak c = true
      · rw [if_pos hb]; simp
      · rw [if_neg hb]
        exact ih (c :: cur) (Or.inl (by simp))

theorem joinNL_splitlinesGo :
    ∀ (rest : List Char), (∀ c ∈ rest, isLineBreak c = true → c = '\n') →
      rest.getLast? ≠ some '\n' →
      ∀ cur, joinNL (splitlinesGo cur rest) = cur.reverse ++ rest := by
  intro rest
  induction rest with
  | nil =>
    intro _ _ cur
    rw [splitlinesGo.eq_def]
    dsimp only
    by_cases hc : cur.isEmpty = true
    · rw [if_pos hc]
      have hnil : cur = [] := by simpa using hc
      subst hnil
      rfl
    · rw [if_neg hc, List.append_nil]
      rfl
  | cons c t ih =>
    intro hb hlast cur
    by_cases hc : isLineBreak c = true
    · have hcn : c = '\n' := hb c (by simp) hc
      subst hcn
      rw [splitlinesGo_cons_nl]
      have ht : t ≠ [] := by
        intro he
        subst he
        exact hlast rfl
      have hlast' : t.getLast? ≠ some '\n' := by
        cases t with
        | nil => exact absurd rfl ht
        | cons y ys =>
          intro hy
          exact hlast (by rw [List.getLast?_cons_cons]; exact hy)
      have hgo := splitlinesGo_ne_nil t [] (Or.inr ht)
      cases hG : splitlinesGo [] t with
      | nil => exact absurd hG hgo
      | cons z zs =>
        rw [joinNL, ← hG,
          ih (fun x hx hbx => hb x (by simp [hx]) hbx) hlast' [],
          List.reverse_nil, List.nil_append]
    · have hcf : isLineBreak c = false := by
        cases hy : isLineBreak c with
        | false => rfl
        | true => exact absurd hy hc
      rw [splitlinesGo_cons_nonbreak hcf]
      have hlast' : t.getLast? ≠ some '\n' := by
        cases t with
        | nil => simp
        | cons y ys =>
          intro hy
          exact hlast (by rw [List.getLast?_cons_cons]; exact hy)
      rw [ih (fun x hx hbx => hb x (by simp [hx]) hbx) hlast' (c :: cur)]
      simp [List.reverse_cons, List.append_assoc]

theorem endsWithTicks_of_append (x : List Char) :
    endsWithTicks (x ++ ['`', '`', '`']) = true := by
  show (("```".data).isSuffixOf (x ++ ['`', '`', '`'])) = true
  rw [show "```".data = ['`', '`', '`'] from rfl]
  simp [List.isSuffixOf, List.reverse_append, List.isPrefixOf]

/-- Variant of the strip-compatibility lemma with extra trailing Python
whitespace appended to the document. -/
theorem stripBoth_pyWs_append_ws {l w : List Char} {c d : Char} {m : List Char}
    (hu : stripBoth isJsonWs l = c :: m)
    (hlast : (c :: m).getLast? = some d)
    (hc : isPyWs c = false) (hd : isPyWs d = false)
    (hw : ∀ x ∈ w, isPyWs x = true) :
    stripBoth isPyWs (l ++ w) = c :: m := by
  obtain ⟨a, b, hdecomp, ha, hb⟩ := stripBoth_decomposition isJsonWs l
  rw [hu] at hdecomp
  have ha' : ∀ x ∈ a, isPyWs x = true := fun x hx => jsonWs_pyWs (ha x hx)
  have hbw : ∀ x ∈ b ++ w, isPyWs x = true := by
    intro x hx
    rcases List.mem_append.mp hx with hx | hx
    · exact jsonWs_pyWs (hb x hx)
    · exact hw x hx
  rw [hdecomp]
  unfold stripBoth
  rw [show ((a ++ (c :: m) ++ b) ++ w : List Char) = a ++ ((c :: m) ++ (b ++ w)) by
    simp [List.append_assoc]]
  rw [dropWhile_append_of_all ((c :: m) ++ (b ++ w)) ha',
    List.cons_append, dropWhile_of_head_neg hc, ← List.cons_append,
    stripTrail_append_all _ hbw]
  exact stripTrail_of_getLast_neg hlast hd

/-- Core of the amended C9 over character lists: a code fence whose label has
no line-break characters and whose body breaks lines only at ordinary
newlines is unwrapped exactly, and the body's direct parse is returned. -/
theorem extractJsonL_fenced (label inner : List Char) (v : Json)
    (hlabel : ∀ c ∈ label, isLineBreak c = false)
    (hinner : ∀ c ∈ inner, isLineBreak c = true → c = '\n')
    (hv : jsonLoadsL inner = Option.some v) :
    extractJsonL
        ('`' :: '`' :: '`' :: (label ++ '\n' :: (inner ++ '\n' :: ['`', '`', '`'])))
      = Option.some v := by
  obtain ⟨c, m, d, hu, hc, hlast, hd, hpv⟩ := jsonLoadsL_core hv
  have hcpy : isPyWs c = false := valueStart_not_pyWs hc
  have hdpy : isPyWs d = false := valueEnd_not_pyWs hd
  have hjl : jsonLoadsL (c :: m) = Option.some v := by
    have hsb : stripBoth isJsonWs (c :: m) = c :: m :=
      stripBoth_of_ends_neg hlast (not_pyWs_not_jsonWs hcpy) (not_pyWs_not_jsonWs hdpy)
    simp only [jsonLoadsL, hsb, hpv]
  have h1 : (inner ++ '\n' :: ['`', '`', '`']).getLast? = some '`' := by
    rw [getLast?_append_right (by simp)]
    rfl
  have h2 : (label ++ '\n' :: (inner ++ '\n' :: ['`', '`', '`'])).getLast? = some '`' := by
    rw [getLast?_append_right (by simp)]
    exact getLast?_cons_of_some '\n' h1
  have htext_last :
      ('`' :: '`' :: '`' :: (label ++ '\n' :: (inner ++ '\n' :: ['`', '`', '`']))).getLast?
        = some '`' :=
    getLast?_cons_of_some _ (getLast?_cons_of_some _ (getLast?_cons_of_some _ h2))
  have hs0 :
      stripBoth isPyWs
          ('`' :: '`' :: '`' :: (label ++ '\n' :: (inner ++ '\n' :: ['`', '`', '`'])))
        = '`' :: '`' :: '`' :: (label ++ '\n' :: (inner ++ '\n' :: ['`', '`', '`'])) :=
    stripBoth_of_ends_neg htext_last (by decide) (by decide)
  have hsw :
      startsWithTicks
          ('`' :: '`' :: '`' :: (label ++ '\n' :: (inner ++ '\n' :: ['`', '`', '`'])))
        = true := by
    show (("```".data).isPrefixOf _) = true
    rw [show "```".data = ['`', '`', '`'] from rfl]
    simp [List.isPrefixOf]
  have hall : ∀ x ∈ '`' :: '`' :: '`' :: label, isLineBreak x = false := by
    intro x hx
    simp only [List.mem_cons] at hx
    rcases hx with rfl | rfl | rfl | hx
    · decide
    · decide
    · decide
    · exact hlabel x hx
  have hsplit :
      splitlinesPy
          ('`' :: '`' :: '`' :: (label ++ '\n' :: (inner ++ '\n' :: ['`', '`', '`'])))
        = ('`' :: '`' :: '`' :: label) ::
            splitlinesGo [] (inner ++ '\n' :: ['`', '`', '`']) := by
    show splitlinesGo []
        (('`' :: '`' :: '`' :: label) ++ '\n' :: (inner ++ '\n' :: ['`', '`', '`'])) = _
    rw [splitlinesGo_append_nl ('`' :: '`' :: '`' :: label) hall []
      (inner ++ '\n' :: ['`', '`', '`'])]
    rw [List.reverse_nil, List.nil_append]
  have hbrest : ∀ x ∈ inner ++ '\n' :: ['`', '`', '`'],
      isLineBreak x = true → x = '\n' := by
    intro x hx
    rcases List.mem_append.mp hx with hx | hx
    · exact hinner x hx
    · simp only [List.mem_cons, List.not_mem_nil, or_false] at hx
      rcases hx with rfl | rfl | rfl | rfl
      · intro _; rfl
      · intro hb; exact absurd hb (by decide)
      · intro hb; exact absurd hb (by decide)
      · intro hb; exact absurd hb (by decide)
  have hlastrest : (inner ++ '\n' :: ['`', '`', '`']).getLast? ≠ some '\n' := by
    rw [h1]
    simp
  have hjoin :
      joinNL (List.drop 1 (splitlinesPy
          ('`' :: '`' :: '`' :: (label ++ '\n' :: (inner ++ '\n' :: ['`', '`', '`'])))))
        = inner ++ '\n' :: ['`', '`', '`'] := by
    rw [hsplit]
    rw [show (List.drop 1 (('`' :: '`' :: '`' :: label) ::
        splitlinesGo [] (inner ++ '\n' :: ['`', '`', '`'])) : List (List Char))
      = splitlinesGo [] (inner ++ '\n' :: ['`', '`', '`']) from rfl]
    rw [joinNL_splitlinesGo (inner ++ '\n' :: ['`', '`', '`']) hbrest hlastrest []]
    rw [List.reverse_nil, List.nil_append]
  have hstrail :
      stripTrail isPyWs (inner ++ '\n' :: ['`', '`', '`'])
        = inner ++ '\n' :: ['`', '`', '`'] :=
    stripTrail_of_getLast_neg h1 (by decide)
  have hends : endsWithTicks (inner ++ '\n' :: ['`', '`', '`']) = true := by
    rw [show (inner ++ '\n' :: ['`', '`', '`'] : List Char)
      = (inner ++ ['\n']) ++ ['`', '`', '`'] by simp]
    exact endsWithTicks_of_append _
  have htake :
      List.take ((inner ++ '\n' :: ['`', '`', '`']).length - 3)
          (inner ++ '\n' :: ['`', '`', '`'])
        = inner ++ ['\n'] := by
    rw [show (inner ++ '\n' :: ['`', '`', '`'] : List Char)
      = (inner ++ ['\n']) ++ ['`', '`', '`'] by simp]
    rw [show ((inner ++ ['\n']) ++ ['`', '`', '`']).length - 3
      = (inner ++ ['\n']).length by simp]
    exact List.take_left _ _
  have hstrip2 : stripBoth isPyWs (inner ++ ['\n']) = c :: m := by
    refine stripBoth_pyWs_append_ws hu hlast hcpy hdpy ?_
    intro x hx
    simp at hx
    subst hx
    decide
  simp only [extractJsonL]
  rw [hs0, if_pos hsw, hjoin, hstrail, if_pos hends, htake, hstrip2, hjl]

/-- C9 (amended): for a raw model response that is a Markdown code fence
(label free of line-break characters) wrapping a body that parses as JSON and
whose only line-break characters are ordinary newlines, `extract_json`
returns the direct parse of the unwrapped body.  The restriction on the
body's line breaks is necessary: `str.splitlines` also splits on
` `/` `/`\x85` and the other C0 line breaks, which are legal raw
inside JSON strings, and rejoining with `"\n"` corrupts such bodies. -/
theorem fenced_code_extract (label inner : String) (v : Json)
    (hlabel : ∀ c ∈ label.data, isLineBreak c = false)
    (hinner : ∀ c ∈ inner.data, isLineBreak c = true → c = '\n')
    (hv : json_loads inner = Option.some v) :
    extract_json ("```" ++ label ++ "\n" ++ inner ++ "\n```") = Option.some v := by
  show extractJsonL ("```" ++ label ++ "\n" ++ inner ++ "\n```").data = Option.some v
  rw [show ("```" ++ label ++ "\n" ++ inner ++ "\n```").data
      = '`' :: '`' :: '`' :: (label.data ++ '\n' :: (inner.data ++ '\n' :: ['`', '`', '`'])) by
    simp only [String.data_append]
    simp [List.append_assoc]]
  exact extractJsonL_fenced label.data inner.data v hlabel hinner hv

theorem fenced_code_extract_witness :
    json_loads "\x7b\"a\": 1\x7d" = Option.some (Json.obj [("a", Json.num "1")]) ∧
    extract_json ("```" ++ "json" ++ "\n" ++ "\x7b\"a\": 1\x7d" ++ "\n```") =
      Option.some (Json.obj [("a", Json.num "1")]) :=
  ⟨rfl, fenced_code_extract "json" "\x7b\"a\": 1\x7d" _ (by decide) (by decide) rfl⟩

/-- C9 counterexample: the body `\x7b"a": "<U+2028>"\x7d` is valid JSON (the
line separator U+2028 may appear raw inside a JSON string), yet `extract_json`
on the fenced response fails: `str.splitlines` splits the body at U+2028 and
`"\n".join` replaces it with a newline, which is an illegal raw control
character inside a JSON string, so both the direct parse and the slice
recovery of the corrupted text fail. -/
theorem fenced_code_extract_counterexample :
    json_loads "\x7b\"a\": \" \"\x7d" =
      Option.some (Json.obj [("a", Json.str " ")]) ∧
    extract_json ("```json\n\x7b\"a\": \" \"\x7d\n```") = Option.none :=
  ⟨rfl, rfl⟩

end Studyfied
